import Mathlib

/-!
# soypat/fatfs: MBR decoder and disk multiplexer

A shallow embedding of `mbr/mbr.go` (the boot-sector view and its partition
table entries) and of the drive multiplexer of `ext.go` (`disk_status`,
`disk_initialize`, `disk_read`, `disk_write`, `disk_ioctl`), of the simulated RAM
backend that `loadVFS` of `fatfs_test.go` installs, and of the facade functions `Read`
and `Write` of `ext.go`, followed by the theorems that settle the specification's
claims about them.

Conventions of the embedding:

* a Go `byte` is a `Fin 256`;
* a Go `int` is an `Int` kept in the 64-bit two's-complement range by `wrapInt`;
* a Go slice is its visible elements together with the elements of the backing
  array that lie between its length and its capacity;
* a Go panic is the `error` side of `Except GoPanic`;
* memory reached through a `uintptr` is a function from addresses to bytes, and
  `uintptr` arithmetic is modulo 2^64;
* code that no source file holds (the engine's constants, `f_read`, `f_write`) is a
  parameter of the embedding.
-/

namespace Fatfs

/-! ## Go runtime fragments -/

/-- A Go `byte`. -/
abbrev Byte := Fin 256

/-- The ways a Go expression of the embedded code can panic. -/
inductive GoPanic where
  /-- An explicit `panic(msg)`. -/
  | explicit (msg : String)
  /-- A slice expression whose bounds are out of range. -/
  | sliceBounds
  /-- An index expression out of range. -/
  | indexOutOfRange
  /-- A slice-to-array conversion of a slice that is too short. -/
  | sliceToArray
  deriving DecidableEq, Repr

/-- A Go `[]byte`: `elems` are the `len` visible elements, `spare` the elements of
the backing array between `len` and `cap`. -/
structure Slice where
  elems : List Byte
  spare : List Byte
  deriving DecidableEq, Repr

namespace Slice

/-- The nil slice, zero value of `[]byte`. -/
def nil : Slice := ⟨[], []⟩

/-- A slice that covers a whole array (`len = cap`). -/
def ofList (l : List Byte) : Slice := ⟨l, []⟩

/-- Go `len(s)`. -/
def len (s : Slice) : Nat := s.elems.length

/-- Go `cap(s)`. -/
def cap (s : Slice) : Nat := s.elems.length + s.spare.length

/-- The backing array from the slice's first element up to its capacity. -/
def backing (s : Slice) : List Byte := s.elems ++ s.spare

/-- Go `s[lo:hi]`: panics unless `0 <= lo <= hi <= cap(s)`. -/
def slice (s : Slice) (lo hi : Int) : Except GoPanic Slice :=
  if 0 ≤ lo ∧ lo ≤ hi ∧ hi ≤ (s.cap : Int) then
    .ok ⟨(s.backing.drop lo.toNat).take (hi.toNat - lo.toNat), s.backing.drop hi.toNat⟩
  else
    .error .sliceBounds

/-- Go `s[lo:hi:max]`: panics unless `0 <= lo <= hi <= max <= cap(s)`. -/
def slice3 (s : Slice) (lo hi max : Int) : Except GoPanic Slice :=
  if 0 ≤ lo ∧ lo ≤ hi ∧ hi ≤ max ∧ max ≤ (s.cap : Int) then
    .ok ⟨(s.backing.drop lo.toNat).take (hi.toNat - lo.toNat),
         (s.backing.drop hi.toNat).take (max.toNat - hi.toNat)⟩
  else
    .error .sliceBounds

end Slice

/-- Two's-complement wrap-around of Go's 64-bit `int`. -/
def wrapInt (x : Int) : Int := (x + 2 ^ 63) % 2 ^ 64 - 2 ^ 63

/-- Go `uint32(x) << k` on `uint32`. -/
def shl32 (x k : Nat) : Nat := (x <<< k) % 2 ^ 32

/-- Go `binary.LittleEndian.Uint32(b)`: the bounds check `_ = b[3]`, then
`uint32(b[0]) | uint32(b[1])<<8 | uint32(b[2])<<16 | uint32(b[3])<<24`. -/
def Uint32 (b : Slice) : Except GoPanic Nat :=
  match b.elems with
  | b0 :: b1 :: b2 :: b3 :: _ =>
    .ok (b0.val ||| shl32 b1.val 8 ||| shl32 b2.val 16 ||| shl32 b3.val 24)
  | _ => .error .indexOutOfRange

/-- Go `[16]byte(s)`: panics when `len(s) < 16`, else copies the first 16 elements. -/
def toArray16 (s : Slice) : Except GoPanic (Fin 16 → Byte) :=
  if h : 16 ≤ s.elems.length then
    .ok (fun j => s.elems.get ⟨j.val, by omega⟩)
  else
    .error .sliceToArray

/-! ## `mbr/mbr.go` -/

namespace mbr

def bootstrapLen : Int := 440
def uniqueDiskIDOff : Int := bootstrapLen
def uniqueDiskIDLen : Int := 4
def reservedLen : Int := 2
def pteOffset : Int := bootstrapLen + uniqueDiskIDLen + reservedLen
/-- Partition table entry length. -/
def pteLen : Int := 16

structure BootSector where
  data : Slice
  deriving DecidableEq, Repr

/-- The zero value `BootSector{}`. -/
def BootSector.zero : BootSector := ⟨Slice.nil⟩

structure PartitionTableEntry where
  data : Fin 16 → Byte

/-- Go `ToBootSector`: the pair `(BootSector, error)`, a nil error being `none`. -/
def ToBootSector (start : Slice) : Except GoPanic (BootSector × Option String) :=
  if start.len < 512 then
    .ok (BootSector.zero, some "boot sector too short")
  else do
    let d ← start.slice3 0 512 512
    let bs : BootSector := ⟨d⟩
    .ok (bs, none)

/-- Bootstrap returns bytes 0..439 of the MBR containing the binary executable code. -/
def BootSector.Bootstrap (mbr : BootSector) : Except GoPanic Slice :=
  mbr.data.slice 0 bootstrapLen

def BootSector.UniqueDiskID (mbr : BootSector) : Except GoPanic Nat := do
  let s ← mbr.data.slice uniqueDiskIDOff (uniqueDiskIDOff + uniqueDiskIDLen)
  Uint32 s

def BootSector.PartitionTable (mbr : BootSector) (i : Int) : Except GoPanic PartitionTableEntry :=
  if i > 3 then
    .error (.explicit "invalid partition table index")
  else do
    let s ← mbr.data.slice (wrapInt (pteOffset + wrapInt (i * pteLen)))
      (wrapInt (pteOffset + wrapInt (wrapInt (i + 1) * pteLen)))
    let a ← toArray16 s
    .ok ⟨a⟩

/-- A Go slice expression `a[lo:hi]` on the 16-byte array of an entry. -/
def PartitionTableEntry.window (pte : PartitionTableEntry) (lo hi : Int) : Except GoPanic Slice :=
  (Slice.ofList (List.ofFn pte.data)).slice lo hi

def PartitionTableEntry.Attributes (pte : PartitionTableEntry) : Byte :=
  pte.data 0

def PartitionTableEntry.PartitionType (pte : PartitionTableEntry) : Byte :=
  pte.data 4

/-- StartSector returns the starting sector of the partition in LBA format. -/
def PartitionTableEntry.StartSector (pte : PartitionTableEntry) : Except GoPanic Nat := do
  let s ← pte.window 8 12
  Uint32 s

/-- NumberOfSectors returns the number of sectors in the partition. -/
def PartitionTableEntry.NumberOfSectors (pte : PartitionTableEntry) : Except GoPanic Nat := do
  let s ← pte.window 12 16
  Uint32 s

/-- CHSStart returns the starting sector of the partition in CHS format. -/
def PartitionTableEntry.CHSStart (pte : PartitionTableEntry) : Byte × Byte × Byte :=
  (pte.data 1, pte.data 2, pte.data 3)

/-- CHSLast returns the last sector of the partition in CHS format. -/
def PartitionTableEntry.CHSLast (pte : PartitionTableEntry) : Byte × Byte × Byte :=
  (pte.data 5, pte.data 6, pte.data 7)

end mbr

/-! ## The test fixture of `fatfs_test.go` -/

/-- The boot sector `fatInit[0]` of the test image: 224 listed bytes, zeros up to
offset 509, and the signature `0x55 0xaa` at offset 510. -/
def fatInit0 : List Byte :=
  [0xeb, 0x58, 0x90, 0x6d, 0x6b, 0x66, 0x73, 0x2e, 0x66, 0x61, 0x74, 0x00, 0x02, 0x08, 0x20, 0x00,
   0x02, 0x00, 0x00, 0x00, 0x00, 0xf8, 0x00, 0x00, 0x3e, 0x00, 0xf8, 0x00, 0x00, 0x00, 0x00, 0x00,
   0xd0, 0x07, 0xf0, 0x00, 0xe8, 0x3b, 0x00, 0x00, 0x00, 0x00, 0x00, 0x00, 0x02, 0x00, 0x00, 0x00,
   0x01, 0x00, 0x06, 0x00, 0x00, 0x00, 0x00, 0x00, 0x00, 0x00, 0x00, 0x00, 0x00, 0x00, 0x00, 0x00,
   0x80, 0x00, 0x29, 0x06, 0xf1, 0x12, 0xc5, 0x6b, 0x65, 0x79, 0x6c, 0x61, 0x72, 0x67, 0x6f, 0x20,
   0x20, 0x20, 0x46, 0x41, 0x54, 0x33, 0x32, 0x20, 0x20, 0x20, 0x0e, 0x1f, 0xbe, 0x77, 0x7c, 0xac,
   0x22, 0xc0, 0x74, 0x0b, 0x56, 0xb4, 0x0e, 0xbb, 0x07, 0x00, 0xcd, 0x10, 0x5e, 0xeb, 0xf0, 0x32,
   0xe4, 0xcd, 0x16, 0xcd, 0x19, 0xeb, 0xfe, 0x54, 0x68, 0x69, 0x73, 0x20, 0x69, 0x73, 0x20, 0x6e,
   0x6f, 0x74, 0x20, 0x61, 0x20, 0x62, 0x6f, 0x6f, 0x74, 0x61, 0x62, 0x6c, 0x65, 0x20, 0x64, 0x69,
   0x73, 0x6b, 0x2e, 0x20, 0x20, 0x50, 0x6c, 0x65, 0x61, 0x73, 0x65, 0x20, 0x69, 0x6e, 0x73, 0x65,
   0x72, 0x74, 0x20, 0x61, 0x20, 0x62, 0x6f, 0x6f, 0x74, 0x61, 0x62, 0x6c, 0x65, 0x20, 0x66, 0x6c,
   0x6f, 0x70, 0x70, 0x79, 0x20, 0x61, 0x6e, 0x64, 0x0d, 0x0a, 0x70, 0x72, 0x65, 0x73, 0x73, 0x20,
   0x61, 0x6e, 0x79, 0x20, 0x6b, 0x65, 0x79, 0x20, 0x74, 0x6f, 0x20, 0x74, 0x72, 0x79, 0x20, 0x61,
   0x67, 0x61, 0x69, 0x6e, 0x20, 0x2e, 0x2e, 0x2e, 0x20, 0x0d, 0x0a, 0x00, 0x00, 0x00, 0x00, 0x00]
  ++ List.replicate 286 0 ++ [0x55, 0xaa]

/-! ## The drive multiplexer of `ext.go` -/

/-- The constants of the engine's header that the multiplexer uses. No source file
declares them, so the multiplexer is embedded for arbitrary values. -/
structure DiskConsts where
  DEV_RAM : Int
  DEV_MMC : Int
  DEV_USB : Int
  STA_NOINIT : Nat
  RES_PARERR : Int
  deriving DecidableEq, Repr

/-- Modelled from the spec: one instance of the engine's constants, which no source
file declares: drive indices 0 = RAM, 1 = MMC, 2 = USB and invalid-parameter(3) as in
the external-interfaces section; the not-initialized bit is taken to be bit 0. -/
def specConsts : DiskConsts :=
  { DEV_RAM := 0, DEV_MMC := 1, DEV_USB := 2, STA_NOINIT := 1, RES_PARERR := 3 }

/-- The medium behind a backend function. -/
inductive Medium where
  | RAM
  | MMC
  | USB
  deriving DecidableEq, Repr

/-- One invocation of a backend function variable, with its arguments. -/
inductive BackendCall where
  | status (m : Medium)
  | init (m : Medium)
  | read (m : Medium) (buf sector count : Nat)
  | write (m : Medium) (buf sector count : Nat)
  deriving DecidableEq, Repr

/-- The twelve backend function variables of `ext.go`. A backend acts on a state of
type `σ` (memory, sector map, device) and returns its raw `int32` code. -/
structure Backends (σ : Type) where
  RAM_disk_read : Nat → Nat → Nat → σ → Int × σ
  MMC_disk_read : Nat → Nat → Nat → σ → Int × σ
  USB_disk_read : Nat → Nat → Nat → σ → Int × σ
  RAM_disk_write : Nat → Nat → Nat → σ → Int × σ
  MMC_disk_write : Nat → Nat → Nat → σ → Int × σ
  USB_disk_write : Nat → Nat → Nat → σ → Int × σ
  RAM_disk_initialize : σ → Int × σ
  MMC_disk_initialize : σ → Int × σ
  USB_disk_initialize : σ → Int × σ
  RAM_disk_status : σ → Int × σ
  MMC_disk_status : σ → Int × σ
  USB_disk_status : σ → Int × σ

/-- The initial values of the backend function variables in `ext.go`. -/
def stubBackends : Backends Unit where
  RAM_disk_read := fun _ _ _ s => (1, s)
  MMC_disk_read := fun _ _ _ s => (0, s)
  USB_disk_read := fun _ _ _ s => (0, s)
  RAM_disk_write := fun _ _ _ s => (0, s)
  MMC_disk_write := fun _ _ _ s => (0, s)
  USB_disk_write := fun _ _ _ s => (0, s)
  RAM_disk_initialize := fun s => (0, s)
  MMC_disk_initialize := fun s => (0, s)
  USB_disk_initialize := fun s => (0, s)
  RAM_disk_status := fun s => (0, s)
  MMC_disk_status := fun s => (0, s)
  USB_disk_status := fun s => (0, s)

/-- The state the multiplexer runs in: the backends' state and the record of the
backend invocations made so far. -/
structure World (σ : Type) where
  state : σ
  calls : List BackendCall

/-- Calling a backend function variable: run it and record the invocation. -/
def invoke {σ : Type} (c : BackendCall) (f : σ → Int × σ) (w : World σ) : Int × World σ :=
  let r := f w.state
  (r.1, ⟨r.2, w.calls ++ [c]⟩)

/-- Get Drive Status. The raw `result` is assigned and never read; `stat` keeps its
zero value. `uint8(STA_NOINIT)` converts a constant and is the constant itself. -/
def disk_status {σ : Type} (k : DiskConsts) (B : Backends σ) (pdrv : Byte) (w : World σ) :
    Nat × World σ :=
  let stat : Nat := 0
  let p : Int := pdrv.val
  if p = k.DEV_RAM then
    let (_result, w1) := invoke (.status .RAM) B.RAM_disk_status w
    (stat, w1)
  else if p = k.DEV_MMC then
    let (_result, w1) := invoke (.status .MMC) B.MMC_disk_status w
    (stat, w1)
  else if p = k.DEV_USB then
    let (_result, w1) := invoke (.status .USB) B.USB_disk_status w
    (stat, w1)
  else
    (k.STA_NOINIT, w)

/-- Inidialize a Drive. -/
def disk_initialize {σ : Type} (k : DiskConsts) (B : Backends σ) (pdrv : Byte) (w : World σ) :
    Nat × World σ :=
  let stat : Nat := 0
  let p : Int := pdrv.val
  if p = k.DEV_RAM then
    let (_result, w1) := invoke (.init .RAM) B.RAM_disk_initialize w
    (stat, w1)
  else if p = k.DEV_MMC then
    let (_result, w1) := invoke (.init .MMC) B.MMC_disk_initialize w
    (stat, w1)
  else if p = k.DEV_USB then
    let (_result, w1) := invoke (.init .USB) B.USB_disk_initialize w
    (stat, w1)
  else
    (k.STA_NOINIT, w)

/-- Read Sector(s). The raw `result` is assigned and never read; `res` keeps its
zero value. -/
def disk_read {σ : Type} (k : DiskConsts) (B : Backends σ) (pdrv : Byte)
    (buff sector count : Nat) (w : World σ) : Int × World σ :=
  let res : Int := 0
  let p : Int := pdrv.val
  if p = k.DEV_RAM then
    let (_result, w1) := invoke (.read .RAM buff sector count) (B.RAM_disk_read buff sector count) w
    (res, w1)
  else if p = k.DEV_MMC then
    let (_result, w1) := invoke (.read .MMC buff sector count) (B.MMC_disk_read buff sector count) w
    (res, w1)
  else if p = k.DEV_USB then
    let (_result, w1) := invoke (.read .USB buff sector count) (B.USB_disk_read buff sector count) w
    (res, w1)
  else
    (k.RES_PARERR, w)

/-- Write Sector(s). -/
def disk_write {σ : Type} (k : DiskConsts) (B : Backends σ) (pdrv : Byte)
    (buff sector count : Nat) (w : World σ) : Int × World σ :=
  let res : Int := 0
  let p : Int := pdrv.val
  if p = k.DEV_RAM then
    let (_result, w1) := invoke (.write .RAM buff sector count) (B.RAM_disk_write buff sector count) w
    (res, w1)
  else if p = k.DEV_MMC then
    let (_result, w1) := invoke (.write .MMC buff sector count) (B.MMC_disk_write buff sector count) w
    (res, w1)
  else if p = k.DEV_USB then
    let (_result, w1) := invoke (.write .USB buff sector count) (B.USB_disk_write buff sector count) w
    (res, w1)
  else
    (k.RES_PARERR, w)

/-- Miscellaneous Functions. No backend function is called on any branch. -/
def disk_ioctl {σ : Type} (k : DiskConsts) (_B : Backends σ) (pdrv : Byte)
    (_cmd : Byte) (_buff : Nat) (w : World σ) : Int × World σ :=
  let res : Int := 0
  let p : Int := pdrv.val
  if p = k.DEV_RAM then
    (res, w)
  else if p = k.DEV_MMC then
    (res, w)
  else if p = k.DEV_USB then
    (res, w)
  else
    (k.RES_PARERR, w)

/-- A drive index is bound when the `switch` of the multiplexer has a case for it. -/
def DiskConsts.bound (k : DiskConsts) (pdrv : Byte) : Prop :=
  (pdrv.val : Int) = k.DEV_RAM ∨ (pdrv.val : Int) = k.DEV_MMC ∨ (pdrv.val : Int) = k.DEV_USB

/-- The drive index constant of a medium. -/
def DiskConsts.dev (k : DiskConsts) : Medium → Int
  | .RAM => k.DEV_RAM
  | .MMC => k.DEV_MMC
  | .USB => k.DEV_USB

/-- The `*_disk_status` variable of a medium. -/
def Backends.statusOf {σ : Type} (B : Backends σ) : Medium → σ → Int × σ
  | .RAM => B.RAM_disk_status
  | .MMC => B.MMC_disk_status
  | .USB => B.USB_disk_status

/-- The `*_disk_initialize` variable of a medium. -/
def Backends.initOf {σ : Type} (B : Backends σ) : Medium → σ → Int × σ
  | .RAM => B.RAM_disk_initialize
  | .MMC => B.MMC_disk_initialize
  | .USB => B.USB_disk_initialize

/-- The `*_disk_read` variable of a medium. -/
def Backends.readOf {σ : Type} (B : Backends σ) : Medium → Nat → Nat → Nat → σ → Int × σ
  | .RAM => B.RAM_disk_read
  | .MMC => B.MMC_disk_read
  | .USB => B.USB_disk_read

/-- The `*_disk_write` variable of a medium. -/
def Backends.writeOf {σ : Type} (B : Backends σ) : Medium → Nat → Nat → Nat → σ → Int × σ
  | .RAM => B.RAM_disk_write
  | .MMC => B.MMC_disk_write
  | .USB => B.USB_disk_write

/-! ## The simulated RAM backend of `fatfs_test.go` (`loadVFS`) -/

/-- A Go `[512]byte`. -/
abbrev Sector := Fin 512 → Byte

/-- The zero value of `[512]byte`. -/
def zeroSector : Sector := fun _ => 0

/-- The state the simulated backend acts on: the process memory that the `uintptr`
buffers point into, and the sector map `fatInit` of type `map[int64][512]byte`. -/
structure VFS where
  mem : Nat → Byte
  fatInit : Int → Option Sector

/-- Go `m[k]` on a map: the zero value when the key is absent. -/
def mapGet (m : Int → Option Sector) (k : Int) : Sector :=
  (m k).getD zeroSector

/-- Go `m[k] = v` on a map. -/
def mapSet (m : Int → Option Sector) (k : Int) (v : Sector) : Int → Option Sector :=
  fun k1 => if k1 = k then some v else m k1

/-- Go `*(*[512]byte)(unsafe.Pointer(p))`: the 512 bytes of memory at address `p`. -/
def loadArray (mem : Nat → Byte) (p : Nat) : Sector :=
  fun j => mem (p + j.val)

/-- Go `copy(buff[:], sec[:])` with `buff = (*[512]byte)(unsafe.Pointer(p))`: the 512
bytes of memory at address `p` become `sec`. -/
def storeArray (mem : Nat → Byte) (p : Nat) (sec : Sector) : Nat → Byte :=
  fun a => if h : p ≤ a ∧ a < p + 512 then sec ⟨a - p, by omega⟩ else mem a

def vfsLim : Nat := 32000 * 512

/-- The loop of the `RAM_disk_read` closure, from index `i` with `n = count - i`
iterations left. `uintptr` arithmetic is modulo 2^64; the map key is
`int64(sector)+int64(i)`. -/
def vfsReadFrom (buf sector : Nat) : Nat → Nat → VFS → Int × VFS
  | 0, _, v => (0, v)
  | n + 1, i, v =>
    let off := (i * 512) % 2 ^ 64
    if off > vfsLim then
      (1, v)
    else
      let p := (buf + off) % 2 ^ 64
      let sec := mapGet v.fatInit (wrapInt ((sector : Int) + (i : Int)))
      vfsReadFrom buf sector n (i + 1) { v with mem := storeArray v.mem p sec }

/-- The loop of the `RAM_disk_write` closure, from index `i` with `n = count - i`
iterations left. -/
def vfsWriteFrom (buf sector : Nat) : Nat → Nat → VFS → Int × VFS
  | 0, _, v => (0, v)
  | n + 1, i, v =>
    let off := (i * 512) % 2 ^ 64
    if off > vfsLim then
      (1, v)
    else
      let p := (buf + off) % 2 ^ 64
      let buff := loadArray v.mem p
      vfsWriteFrom buf sector n (i + 1)
        { v with fatInit := mapSet v.fatInit (wrapInt ((sector : Int) + (i : Int))) buff }

/-- The backend function variables after `loadVFS()`: `RAM_disk_read` and
`RAM_disk_write` are the closures of the test file (`sector` and `count` are `uint32`),
the other ten keep their initial values. -/
def loadVFS : Backends VFS where
  RAM_disk_read := fun buf sector count v => vfsReadFrom buf sector count 0 v
  MMC_disk_read := fun _ _ _ s => (0, s)
  USB_disk_read := fun _ _ _ s => (0, s)
  RAM_disk_write := fun buf sector count v => vfsWriteFrom buf sector count 0 v
  MMC_disk_write := fun _ _ _ s => (0, s)
  USB_disk_write := fun _ _ _ s => (0, s)
  RAM_disk_initialize := fun s => (0, s)
  MMC_disk_initialize := fun s => (0, s)
  USB_disk_initialize := fun s => (0, s)
  RAM_disk_status := fun s => (0, s)
  MMC_disk_status := fun s => (0, s)
  USB_disk_status := fun s => (0, s)

/-- A sample state: every byte of memory at address `a` is `a mod 251`, and the sector
map is empty. -/
def sampleVFS : VFS where
  mem := fun a => Fin.ofNat (a % 251)
  fatInit := fun _ => none

/-! ## The facade functions `Read` and `Write` of `ext.go` -/

/-- The engine functions `f_read` and `f_write` that the facade calls. No source file
holds them, so the facade is embedded for an arbitrary engine acting on a state of
type `ε`: from the file pointer, the buffer address and the `uint32` length it gives
the count it stores through the last pointer argument, and its `FRESULT`. -/
structure Engine (ε : Type) where
  f_read : Nat → Nat → Nat → ε → (Nat × Int) × ε
  f_write : Nat → Nat → Nat → ε → (Nat × Int) × ε

/-- One invocation of an engine function, with its arguments. -/
inductive EngineCall where
  | f_read (fp buff btr : Nat)
  | f_write (fp buff btw : Nat)
  deriving DecidableEq, Repr

/-- The state the facade runs in: the engine's state and the record of the engine
invocations made so far. -/
structure EngineWorld (ε : Type) where
  state : ε
  calls : List EngineCall

/-- An engine that transfers nothing and returns 0, for evaluating the facade. -/
def nullEngine : Engine Unit where
  f_read := fun _ _ _ s => ((0, 0), s)
  f_write := fun _ _ _ s => ((0, 0), s)

/-- Go `&buf[0]`: the index check of `buf[0]`, then the address of the first element,
which is the data pointer `ptr` of the slice. -/
def addrOfFirst (ptr : Nat) (buf : Slice) : Except GoPanic Nat :=
  if 0 < buf.len then .ok ptr else .error .indexOutOfRange

/-- Go `uint32(len(buf))`. -/
def lenU32 (buf : Slice) : Nat := buf.len % 2 ^ 32

/-- Go `Read`: `fp` is the address of the `FIL`, `ptr` the data pointer of `buf`. The
result is the pair `(n, fr)`, or the panic of `&buf[0]`, with the state left behind. -/
def Read {ε : Type} (E : Engine ε) (fp ptr : Nat) (buf : Slice) (w : EngineWorld ε) :
    Except GoPanic (Nat × Int) × EngineWorld ε :=
  let _fp := fp
  match addrOfFirst ptr buf with
  | .error e => (.error e, w)
  | .ok _buf =>
    let r := E.f_read _fp _buf (lenU32 buf) w.state
    (.ok r.1, ⟨r.2, w.calls ++ [.f_read _fp _buf (lenU32 buf)]⟩)

/-- Go `Write`, as `Read` with `f_write`. -/
def Write {ε : Type} (E : Engine ε) (fp ptr : Nat) (buf : Slice) (w : EngineWorld ε) :
    Except GoPanic (Nat × Int) × EngineWorld ε :=
  let _fp := fp
  match addrOfFirst ptr buf with
  | .error e => (.error e, w)
  | .ok _buf =>
    let r := E.f_write _fp _buf (lenU32 buf) w.state
    (.ok r.1, ⟨r.2, w.calls ++ [.f_write _fp _buf (lenU32 buf)]⟩)

/-! ## Auxiliary lemmas -/

theorem wrapInt_eq_self (x : Int) (h1 : -9223372036854775808 ≤ x)
    (h2 : x < 9223372036854775808) : wrapInt x = x := by
  unfold wrapInt
  omega

theorem or_shl_eq_add (a b k : Nat) (ha : a < 2 ^ k) : a ||| 2 ^ k * b = 2 ^ k * b + a := by
  rw [Nat.lor_comm]
  exact (Nat.mul_add_lt_is_or ha b).symm

/-- The value `Uint32` computes is the little-endian number of the first four bytes. -/
theorem Uint32_eq (s : Slice) (b0 b1 b2 b3 : Byte)
    (h0 : s.elems[0]? = some b0) (h1 : s.elems[1]? = some b1)
    (h2 : s.elems[2]? = some b2) (h3 : s.elems[3]? = some b3) :
    Uint32 s = .ok (b0.val + 256 * b1.val + 65536 * b2.val + 16777216 * b3.val) := by
  rcases s with ⟨l, sp⟩
  rcases l with _ | ⟨a0, _ | ⟨a1, _ | ⟨a2, _ | ⟨a3, t⟩⟩⟩⟩ <;> simp at h0 h1 h2 h3
  subst h0 h1 h2 h3
  have e0 := a0.isLt
  have e1 := a1.isLt
  have e2 := a2.isLt
  have e3 := a3.isLt
  have s1 : shl32 a1.val 8 = 2 ^ 8 * a1.val := by
    unfold shl32; rw [Nat.shiftLeft_eq]; omega
  have s2 : shl32 a2.val 16 = 2 ^ 16 * a2.val := by
    unfold shl32; rw [Nat.shiftLeft_eq]; omega
  have s3 : shl32 a3.val 24 = 2 ^ 24 * a3.val := by
    unfold shl32; rw [Nat.shiftLeft_eq]; omega
  simp only [Uint32, s1, s2, s3]
  rw [or_shl_eq_add _ _ 8 (by omega), or_shl_eq_add _ _ 16 (by omega),
    or_shl_eq_add _ _ 24 (by omega)]
  have e : 2 ^ 24 * a3.val + (2 ^ 16 * a2.val + (2 ^ 8 * a1.val + a0.val))
      = a0.val + 256 * a1.val + 65536 * a2.val + 16777216 * a3.val := by omega
  rw [e]

namespace Slice

theorem slice_ofList (l : List Byte) (lo hi : Nat) (h : lo ≤ hi) (h2 : hi ≤ l.length) :
    (Slice.mk l []).slice lo hi = .ok ⟨(l.drop lo).take (hi - lo), l.drop hi⟩ := by
  have hc : (0 : Int) ≤ lo ∧ (lo : Int) ≤ hi ∧ (hi : Int) ≤ ((Slice.mk l []).cap : Int) := by
    simp only [cap, List.length_nil, Nat.add_zero]
    omega
  simp [slice, hc, backing]

end Slice

namespace mbr

theorem ToBootSector_short (b : Slice) (h : b.len < 512) :
    ToBootSector b = .ok (BootSector.zero, some "boot sector too short") := by
  simp [ToBootSector, h]

theorem ToBootSector_long (b : Slice) (h : 512 ≤ b.len) :
    ToBootSector b = .ok (⟨⟨b.elems.take 512, []⟩⟩, none) := by
  have h1 : ¬ b.len < 512 := by omega
  have hl : 512 ≤ b.elems.length := h
  have hc : (512 : Int) ≤ (b.cap : Int) := by
    simp only [Slice.cap]
    omega
  simp only [ToBootSector, h1, if_false, Slice.slice3, Slice.backing]
  simp [hc, List.take_append_of_le_length hl]
  rfl

end mbr

namespace mbr

theorem Bootstrap_view (d : List Byte) (hd : d.length = 512) :
    (BootSector.mk ⟨d, []⟩).Bootstrap = .ok ⟨d.take 440, d.drop 440⟩ := by
  have h := Slice.slice_ofList d 0 440 (by omega) (by omega)
  simpa [BootSector.Bootstrap, bootstrapLen] using h

theorem UniqueDiskID_view (d : List Byte) (hd : d.length = 512) (b0 b1 b2 b3 : Byte)
    (h0 : d[440]? = some b0) (h1 : d[441]? = some b1)
    (h2 : d[442]? = some b2) (h3 : d[443]? = some b3) :
    (BootSector.mk ⟨d, []⟩).UniqueDiskID
      = .ok (b0.val + 256 * b1.val + 65536 * b2.val + 16777216 * b3.val) := by
  have h := Slice.slice_ofList d 440 444 (by omega) (by omega)
  have e : (BootSector.mk ⟨d, []⟩).UniqueDiskID
      = Uint32 ⟨(d.drop 440).take (444 - 440), d.drop 444⟩ := by
    simp only [BootSector.UniqueDiskID, uniqueDiskIDOff, uniqueDiskIDLen, bootstrapLen]
    have h' : (Slice.mk d []).slice 440 (440 + 4)
        = .ok ⟨(d.drop 440).take (444 - 440), d.drop 444⟩ := h
    rw [h']
    rfl
  rw [e]
  apply Uint32_eq <;> simp [List.getElem?_take, List.getElem?_drop, h0, h1, h2, h3]

theorem PartitionTable_view (d : List Byte) (hd : d.length = 512) (i : Int)
    (h1 : -27 ≤ i) (h2 : i ≤ 3) :
    ∃ e, (BootSector.mk ⟨d, []⟩).PartitionTable i = .ok e ∧
      ∀ j : Fin 16, d[(446 + 16 * i).toNat + j.val]? = some (e.data j) := by
  have hi : ¬ i > 3 := by omega
  have w1 : wrapInt (i * pteLen) = i * 16 := by
    rw [pteLen]; exact wrapInt_eq_self _ (by omega) (by omega)
  have w2 : wrapInt (i + 1) = i + 1 := wrapInt_eq_self _ (by omega) (by omega)
  have w3 : wrapInt ((i + 1) * pteLen) = (i + 1) * 16 := by
    rw [pteLen]; exact wrapInt_eq_self _ (by omega) (by omega)
  have po : pteOffset = 446 := by decide
  have w4 : wrapInt (pteOffset + i * 16) = 446 + 16 * i := by
    rw [po, wrapInt_eq_self _ (by omega) (by omega)]; omega
  have w5 : wrapInt (pteOffset + (i + 1) * 16) = 446 + 16 * i + 16 := by
    rw [po, wrapInt_eq_self _ (by omega) (by omega)]; omega
  obtain ⟨n, hn⟩ : ∃ n : Nat, (446 + 16 * i : Int) = n := ⟨(446 + 16 * i).toNat, by omega⟩
  have hs : (Slice.mk d []).slice (n : Int) ((n : Int) + 16)
      = .ok ⟨(d.drop n).take (n + 16 - n), d.drop (n + 16)⟩ := by
    have h := Slice.slice_ofList d n (n + 16) (by omega) (by omega)
    push_cast at h
    exact h
  have hlen : ((d.drop n).take (n + 16 - n)).length = 16 := by
    simp only [List.length_take, List.length_drop]; omega
  have h16 : 16 ≤ (Slice.mk ((d.drop n).take (n + 16 - n)) (d.drop (n + 16))).elems.length := by
    simp only [hlen]; exact le_refl 16
  refine ⟨⟨fun j => ((d.drop n).take (n + 16 - n)).get ⟨j.val, by omega⟩⟩, ?_, ?_⟩
  · simp only [BootSector.PartitionTable, hi, if_false, w1, w2, w3, w4, w5, hn]
    rw [hs]
    simp only [bind, Except.bind, toArray16, h16, dif_pos]
  · intro j
    have hj := j.isLt
    have e : (446 + 16 * i).toNat = n := by omega
    rw [e]
    simp only [List.get_eq_getElem, List.getElem_take, List.getElem_drop]
    exact List.getElem?_eq_getElem (by omega)

end mbr

namespace mbr

theorem ofFn_getElem? (f : Fin 16 → Byte) (k : Fin 16) : (List.ofFn f)[k.val]? = some (f k) := by
  rw [List.getElem?_eq_getElem (by simp)]
  simp only [List.getElem_ofFn]

theorem window_eq (e : PartitionTableEntry) (lo hi : Nat) (h : lo ≤ hi) (h2 : hi ≤ 16) :
    e.window lo hi
      = .ok ⟨((List.ofFn e.data).drop lo).take (hi - lo), (List.ofFn e.data).drop hi⟩ :=
  Slice.slice_ofList (List.ofFn e.data) lo hi h (by simp [h2])

theorem StartSector_eq (e : PartitionTableEntry) :
    e.StartSector = .ok ((e.data 8).val + 256 * (e.data 9).val + 65536 * (e.data 10).val
      + 16777216 * (e.data 11).val) := by
  have h : e.window 8 12 = _ := window_eq e 8 12 (by omega) (by omega)
  simp only [PartitionTableEntry.StartSector, h, bind, Except.bind]
  apply Uint32_eq <;> simp only [List.getElem?_take, List.getElem?_drop]
  · exact ofFn_getElem? e.data 8
  · exact ofFn_getElem? e.data 9
  · exact ofFn_getElem? e.data 10
  · exact ofFn_getElem? e.data 11

theorem NumberOfSectors_eq (e : PartitionTableEntry) :
    e.NumberOfSectors = .ok ((e.data 12).val + 256 * (e.data 13).val + 65536 * (e.data 14).val
      + 16777216 * (e.data 15).val) := by
  have h : e.window 12 16 = _ := window_eq e 12 16 (by omega) (by omega)
  simp only [PartitionTableEntry.NumberOfSectors, h, bind, Except.bind]
  apply Uint32_eq <;> simp only [List.getElem?_take, List.getElem?_drop]
  · exact ofFn_getElem? e.data 12
  · exact ofFn_getElem? e.data 13
  · exact ofFn_getElem? e.data 14
  · exact ofFn_getElem? e.data 15

end mbr

namespace mbr

set_option maxRecDepth 100000 in
theorem belowTable_bytes (j : Fin 16) :
    ((Slice.ofList (List.replicate 430 (0 : Byte) ++ List.replicate 16 0xff
      ++ List.replicate 66 0)).elems.take 512)[(446 + 16 * (-1 : Int)).toNat + j.val]?
      = some 0xff := by
  revert j
  decide

set_option maxRecDepth 100000 in
theorem fatInit0_length : fatInit0.length = 512 := by
  decide

set_option maxRecDepth 100000 in
theorem fatInit0_diskID :
    fatInit0[440]? = some 0 ∧ fatInit0[441]? = some 0 ∧ fatInit0[442]? = some 0 ∧
      fatInit0[443]? = some 0 := by
  decide

theorem getElem?_take512 (l : List Byte) (k : Nat) (hk : k < 512) :
    (l.take 512)[k]? = l[k]? := by
  simp [List.getElem?_take, hk]

theorem exists_byte (l : List Byte) (k : Nat) (h : k < l.length) : ∃ v, l[k]? = some v :=
  ⟨l.get ⟨k, h⟩, by simp⟩

theorem take512_length (b : Slice) (h : 512 ≤ b.len) : (b.elems.take 512).length = 512 := by
  have h' : 512 ≤ b.elems.length := h
  simp only [List.length_take]
  omega

end mbr

/-! ## Theorems -/

namespace mbr

/-- C1: `ToBootSector` returns, without panicking, a pair whose error is non-nil
exactly when the buffer is shorter than 512 bytes; no byte of the buffer (the
signature at 510-511 included) is inspected, so every buffer of length at least 512
succeeds; and with an error the returned `BootSector` is the zero value. -/
theorem ToBootSector_error_iff_short (b : Slice) :
    ∃ bs err, ToBootSector b = .ok (bs, err) ∧
      (err ≠ none ↔ b.len < 512) ∧
      (err ≠ none → err = some "boot sector too short" ∧ bs = BootSector.zero ∧
        bs.data = Slice.nil) := by
  by_cases h : b.len < 512
  · refine ⟨_, _, ToBootSector_short b h, ?_, ?_⟩
    · simp [h]
    · intro _
      exact ⟨rfl, rfl, rfl⟩
  · refine ⟨_, _, ToBootSector_long b (by omega), ?_, ?_⟩
    · simp [h]
    · intro hne
      exact absurd rfl hne

end mbr

namespace mbr

/-- C2 (the code departs from the claim): index -1 passes the guard `i > 3`, computes
the bounds 430 and 446, and `PartitionTable` returns without panicking the bytes
430..445 of the sector, which lie below the partition table. Here those bytes are
0xff and every byte of the table is 0. -/
theorem PartitionTable_neg_one_reads_below_table :
    ∃ bs e, ToBootSector (Slice.ofList
        (List.replicate 430 0 ++ List.replicate 16 0xff ++ List.replicate 66 0)) = .ok (bs, none) ∧
      bs.PartitionTable (-1) = .ok e ∧ ∀ j : Fin 16, e.data j = 0xff := by
  have hlen : 512 ≤ (Slice.ofList
      (List.replicate 430 0 ++ List.replicate 16 0xff ++ List.replicate 66 0)).len := by
    simp only [Slice.len, Slice.ofList, List.length_append, List.length_replicate]
    exact le_refl 512
  obtain ⟨e, he, hdata⟩ := PartitionTable_view
    ((Slice.ofList (List.replicate 430 0 ++ List.replicate 16 0xff
      ++ List.replicate 66 0)).elems.take 512)
    (by simp only [Slice.ofList, List.length_take, List.length_append, List.length_replicate]; rfl)
    (-1) (by omega) (by omega)
  refine ⟨_, e, ToBootSector_long _ hlen, he, ?_⟩
  intro j
  have h1 := hdata j
  rw [belowTable_bytes j] at h1
  exact (Option.some.inj h1).symm

end mbr

/-! ### The drive multiplexer -/

/-- C3 (the code departs from the claim): `disk_read` and `disk_write` never read the
raw code of the backend. With the initial backends of `ext.go`, whose `RAM_disk_read`
returns 1, `disk_read` on drive 0 invokes it and returns 0 (OK); and whatever raw code
`c` a RAM backend returns, `disk_read` and `disk_write` return 0. -/
theorem disk_read_write_discard_raw_code :
    (stubBackends.RAM_disk_read 0 0 1 ()).1 = 1 ∧
    (disk_read specConsts stubBackends 0 0 0 1 ⟨(), []⟩).1 = 0 ∧
    (disk_read specConsts stubBackends 0 0 0 1 ⟨(), []⟩).2.calls = [.read .RAM 0 0 1] ∧
    ∀ c : Int,
      (disk_read specConsts { stubBackends with RAM_disk_read := fun _ _ _ s => (c, s) }
        0 0 0 1 ⟨(), []⟩).1 = 0 ∧
      (disk_write specConsts { stubBackends with RAM_disk_write := fun _ _ _ s => (c, s) }
        0 0 0 1 ⟨(), []⟩).1 = 0 :=
  ⟨rfl, rfl, rfl, fun _ => ⟨rfl, rfl⟩⟩

/-- C4: for a drive index that is none of `DEV_RAM`, `DEV_MMC`, `DEV_USB`,
`disk_status` and `disk_initialize` return `STA_NOINIT`, and `disk_read`,
`disk_write` and `disk_ioctl` return `RES_PARERR`; each leaves the backends' state
and the record of backend invocations as they were, so no backend function is
invoked. -/
theorem unbound_drive_no_backend {σ : Type} (k : DiskConsts) (B : Backends σ) (pdrv cmd : Byte)
    (buff sector count : Nat) (w : World σ)
    (hR : (pdrv.val : Int) ≠ k.DEV_RAM) (hM : (pdrv.val : Int) ≠ k.DEV_MMC)
    (hU : (pdrv.val : Int) ≠ k.DEV_USB) :
    disk_status k B pdrv w = (k.STA_NOINIT, w) ∧
    disk_initialize k B pdrv w = (k.STA_NOINIT, w) ∧
    disk_read k B pdrv buff sector count w = (k.RES_PARERR, w) ∧
    disk_write k B pdrv buff sector count w = (k.RES_PARERR, w) ∧
    disk_ioctl k B pdrv cmd buff w = (k.RES_PARERR, w) := by
  simp [disk_status, disk_initialize, disk_read, disk_write, disk_ioctl, hR, hM, hU]

theorem unbound_drive_no_backend_witness :
    ((3 : Byte).val : Int) ≠ specConsts.DEV_RAM ∧ ((3 : Byte).val : Int) ≠ specConsts.DEV_MMC ∧
    ((3 : Byte).val : Int) ≠ specConsts.DEV_USB ∧
    disk_status specConsts stubBackends 3 ⟨(), []⟩ = (specConsts.STA_NOINIT, ⟨(), []⟩) ∧
    disk_initialize specConsts stubBackends 3 ⟨(), []⟩ = (specConsts.STA_NOINIT, ⟨(), []⟩) ∧
    disk_read specConsts stubBackends 3 0 0 1 ⟨(), []⟩ = (specConsts.RES_PARERR, ⟨(), []⟩) ∧
    disk_write specConsts stubBackends 3 0 0 1 ⟨(), []⟩ = (specConsts.RES_PARERR, ⟨(), []⟩) ∧
    disk_ioctl specConsts stubBackends 3 0 0 ⟨(), []⟩ = (specConsts.RES_PARERR, ⟨(), []⟩) :=
  ⟨by decide, by decide, by decide,
    unbound_drive_no_backend specConsts stubBackends 3 0 0 0 1 ⟨(), []⟩
      (by decide) (by decide) (by decide)⟩

/-! ### The boot-sector view -/

namespace mbr

/-- C5: for a buffer of at least 512 bytes and `i` in [0,3], `PartitionTable(i)` of the
decoded boot sector returns the entry whose byte `j` is the buffer's byte
`446 + 16*i + j`, for `j` in 0..15; so a second buffer that agrees with the first on
that 16-byte window decodes to the same entry, whatever its other bytes are. -/
theorem PartitionTable_window (b b2 : Slice) (h : 512 ≤ b.len) (h2 : 512 ≤ b2.len)
    (i : Nat) (hi : i ≤ 3) :
    ∃ bs e, ToBootSector b = .ok (bs, none) ∧ bs.PartitionTable (i : Int) = .ok e ∧
      (∀ j : Fin 16, b.elems[446 + 16 * i + j.val]? = some (e.data j)) ∧
      ((∀ j : Fin 16, b2.elems[446 + 16 * i + j.val]? = b.elems[446 + 16 * i + j.val]?) →
        ∃ bs2, ToBootSector b2 = .ok (bs2, none) ∧ bs2.PartitionTable (i : Int) = .ok e) := by
  obtain ⟨e, he, hdata⟩ := PartitionTable_view (b.elems.take 512) (take512_length b h) i
    (by omega) (by omega)
  obtain ⟨e2, he2, hdata2⟩ := PartitionTable_view (b2.elems.take 512) (take512_length b2 h2) i
    (by omega) (by omega)
  have hn : (446 + 16 * (i : Int)).toNat = 446 + 16 * i := by omega
  have hb : ∀ j : Fin 16, b.elems[446 + 16 * i + j.val]? = some (e.data j) := by
    intro j
    have hj := j.isLt
    rw [← getElem?_take512 _ _ (by omega), ← hn]
    exact hdata j
  have hb2 : ∀ j : Fin 16, b2.elems[446 + 16 * i + j.val]? = some (e2.data j) := by
    intro j
    have hj := j.isLt
    rw [← getElem?_take512 _ _ (by omega), ← hn]
    exact hdata2 j
  refine ⟨_, e, ToBootSector_long b h, he, hb, ?_⟩
  intro hagree
  refine ⟨_, ToBootSector_long b2 h2, ?_⟩
  have hee : e2 = e := by
    rcases e with ⟨d⟩
    rcases e2 with ⟨d2⟩
    congr 1
    funext j
    have h3 := hagree j
    rw [hb j, hb2 j] at h3
    exact Option.some.inj h3
  rw [← hee]
  exact he2

theorem PartitionTable_window_witness :
    512 ≤ (Slice.ofList fatInit0).len ∧ 512 ≤ (Slice.ofList (fatInit0 ++ [7])).len ∧ 1 ≤ 3 ∧
    ∃ bs e, ToBootSector (Slice.ofList fatInit0) = .ok (bs, none) ∧
      bs.PartitionTable ((1 : Nat) : Int) = .ok e ∧
      (∀ j : Fin 16, (Slice.ofList fatInit0).elems[446 + 16 * 1 + j.val]? = some (e.data j)) ∧
      ((∀ j : Fin 16, (Slice.ofList (fatInit0 ++ [7])).elems[446 + 16 * 1 + j.val]?
          = (Slice.ofList fatInit0).elems[446 + 16 * 1 + j.val]?) →
        ∃ bs2, ToBootSector (Slice.ofList (fatInit0 ++ [7])) = .ok (bs2, none) ∧
          bs2.PartitionTable ((1 : Nat) : Int) = .ok e) :=
  have h1 : 512 ≤ (Slice.ofList fatInit0).len := by
    simp [Slice.len, Slice.ofList, fatInit0_length]
  have h2 : 512 ≤ (Slice.ofList (fatInit0 ++ [7])).len := by
    simp [Slice.len, Slice.ofList, fatInit0_length]
  ⟨h1, h2, by decide, PartitionTable_window _ _ h1 h2 1 (by decide)⟩

/-- C6: for a buffer of at least 512 bytes, `UniqueDiskID` of the decoded boot sector
is `b[440] + 256*b[441] + 65536*b[442] + 16777216*b[443]`; for the sample boot sector
`fatInit[0]` of the test fixture it is 0. -/
theorem UniqueDiskID_little_endian :
    (∀ b : Slice, 512 ≤ b.len →
      ∃ bs b0 b1 b2 b3, ToBootSector b = .ok (bs, none) ∧
        b.elems[440]? = some b0 ∧ b.elems[441]? = some b1 ∧
        b.elems[442]? = some b2 ∧ b.elems[443]? = some b3 ∧
        bs.UniqueDiskID
          = .ok (b0.val + 256 * b1.val + 65536 * b2.val + 16777216 * b3.val)) ∧
    (∃ bs, ToBootSector (Slice.ofList fatInit0) = .ok (bs, none) ∧ bs.UniqueDiskID = .ok 0) := by
  have gen : ∀ b : Slice, 512 ≤ b.len → ∀ b0 b1 b2 b3 : Byte,
      b.elems[440]? = some b0 → b.elems[441]? = some b1 →
      b.elems[442]? = some b2 → b.elems[443]? = some b3 →
      (BootSector.mk ⟨b.elems.take 512, []⟩).UniqueDiskID
        = .ok (b0.val + 256 * b1.val + 65536 * b2.val + 16777216 * b3.val) := by
    intro b h b0 b1 b2 b3 h0 h1 h2 h3
    apply UniqueDiskID_view _ (take512_length b h)
    · rw [getElem?_take512 _ _ (by omega)]; exact h0
    · rw [getElem?_take512 _ _ (by omega)]; exact h1
    · rw [getElem?_take512 _ _ (by omega)]; exact h2
    · rw [getElem?_take512 _ _ (by omega)]; exact h3
  constructor
  · intro b h
    have hl : 512 ≤ b.elems.length := h
    obtain ⟨b0, h0⟩ := exists_byte b.elems 440 (by omega)
    obtain ⟨b1, h1⟩ := exists_byte b.elems 441 (by omega)
    obtain ⟨b2, h2⟩ := exists_byte b.elems 442 (by omega)
    obtain ⟨b3, h3⟩ := exists_byte b.elems 443 (by omega)
    exact ⟨_, b0, b1, b2, b3, ToBootSector_long b h, h0, h1, h2, h3,
      gen b h b0 b1 b2 b3 h0 h1 h2 h3⟩
  · have h : 512 ≤ (Slice.ofList fatInit0).len := by
      simp [Slice.len, Slice.ofList, fatInit0_length]
    obtain ⟨h0, h1, h2, h3⟩ := fatInit0_diskID
    exact ⟨_, ToBootSector_long _ h, gen _ h 0 0 0 0 h0 h1 h2 h3⟩

/-- C7: for a buffer of at least 512 bytes, `i` in [0,3] and `o = 446 + 16*i`, the entry
`PartitionTable(i)` has `StartSector` equal to the little-endian number of the bytes
`b[o+8..o+11]` and `NumberOfSectors` equal to the little-endian number of the bytes
`b[o+12..o+15]`. -/
theorem StartSector_NumberOfSectors_little_endian (b : Slice) (h : 512 ≤ b.len)
    (i : Nat) (hi : i ≤ 3) :
    ∃ bs e s0 s1 s2 s3 n0 n1 n2 n3,
      ToBootSector b = .ok (bs, none) ∧ bs.PartitionTable (i : Int) = .ok e ∧
      b.elems[446 + 16 * i + 8]? = some s0 ∧ b.elems[446 + 16 * i + 9]? = some s1 ∧
      b.elems[446 + 16 * i + 10]? = some s2 ∧ b.elems[446 + 16 * i + 11]? = some s3 ∧
      b.elems[446 + 16 * i + 12]? = some n0 ∧ b.elems[446 + 16 * i + 13]? = some n1 ∧
      b.elems[446 + 16 * i + 14]? = some n2 ∧ b.elems[446 + 16 * i + 15]? = some n3 ∧
      e.StartSector
        = .ok (s0.val + 256 * s1.val + 65536 * s2.val + 16777216 * s3.val) ∧
      e.NumberOfSectors
        = .ok (n0.val + 256 * n1.val + 65536 * n2.val + 16777216 * n3.val) := by
  obtain ⟨e, he, hdata⟩ := PartitionTable_view (b.elems.take 512) (take512_length b h) i
    (by omega) (by omega)
  have hn : (446 + 16 * (i : Int)).toNat = 446 + 16 * i := by omega
  have hb : ∀ j : Fin 16, b.elems[446 + 16 * i + j.val]? = some (e.data j) := by
    intro j
    have hj := j.isLt
    rw [← getElem?_take512 _ _ (by omega), ← hn]
    exact hdata j
  exact ⟨_, e, e.data 8, e.data 9, e.data 10, e.data 11, e.data 12, e.data 13, e.data 14,
    e.data 15, ToBootSector_long b h, he, hb 8, hb 9, hb 10, hb 11, hb 12, hb 13, hb 14, hb 15,
    StartSector_eq e, NumberOfSectors_eq e⟩

theorem StartSector_NumberOfSectors_little_endian_witness :
    512 ≤ (Slice.ofList fatInit0).len ∧ 2 ≤ 3 ∧
    ∃ bs e s0 s1 s2 s3 n0 n1 n2 n3,
      ToBootSector (Slice.ofList fatInit0) = .ok (bs, none) ∧
      bs.PartitionTable ((2 : Nat) : Int) = .ok e ∧
      (Slice.ofList fatInit0).elems[446 + 16 * 2 + 8]? = some s0 ∧
      (Slice.ofList fatInit0).elems[446 + 16 * 2 + 9]? = some s1 ∧
      (Slice.ofList fatInit0).elems[446 + 16 * 2 + 10]? = some s2 ∧
      (Slice.ofList fatInit0).elems[446 + 16 * 2 + 11]? = some s3 ∧
      (Slice.ofList fatInit0).elems[446 + 16 * 2 + 12]? = some n0 ∧
      (Slice.ofList fatInit0).elems[446 + 16 * 2 + 13]? = some n1 ∧
      (Slice.ofList fatInit0).elems[446 + 16 * 2 + 14]? = some n2 ∧
      (Slice.ofList fatInit0).elems[446 + 16 * 2 + 15]? = some n3 ∧
      e.StartSector
        = .ok (s0.val + 256 * s1.val + 65536 * s2.val + 16777216 * s3.val) ∧
      e.NumberOfSectors
        = .ok (n0.val + 256 * n1.val + 65536 * n2.val + 16777216 * n3.val) :=
  have h1 : 512 ≤ (Slice.ofList fatInit0).len := by
    simp [Slice.len, Slice.ofList, fatInit0_length]
  ⟨h1, by decide, StartSector_NumberOfSectors_little_endian _ h1 2 (by decide)⟩

/-- C8: for an entry with bytes `d[0..15]`, `Attributes` is `d[0]`, `PartitionType` is
`d[4]` for every byte value, `CHSStart` is `(d[1], d[2], d[3])` and `CHSLast` is
`(d[5], d[6], d[7])`: the raw bytes, with no arithmetic applied. -/
theorem entry_accessors_raw_bytes (d : Fin 16 → Byte) :
    (PartitionTableEntry.mk d).Attributes = d 0 ∧
    (PartitionTableEntry.mk d).PartitionType = d 4 ∧
    (PartitionTableEntry.mk d).CHSStart = (d 1, d 2, d 3) ∧
    (PartitionTableEntry.mk d).CHSLast = (d 5, d 6, d 7) :=
  ⟨rfl, rfl, rfl, rfl⟩

end mbr

namespace mbr

/-- C9: for `b` of at least 512 bytes and any extension `b ++ t`, decoding a buffer that
holds `b ++ t` and decoding one that holds the first 512 bytes of `b` both succeed
and give the same view: its length (and capacity) is exactly 512, its bytes are the
first 512 bytes of `b`, and `Bootstrap`, `UniqueDiskID` and `PartitionTable(i)` for `i`
in [0,3] succeed with equal results on both. -/
theorem ToBootSector_ignores_trailing (s1 s2 : Slice) (b t : List Byte) (h : 512 ≤ b.length)
    (h1 : s1.elems = b ++ t) (h2 : s2.elems = b.take 512) :
    ∃ bs1 bs2, ToBootSector s1 = .ok (bs1, none) ∧ ToBootSector s2 = .ok (bs2, none) ∧
      bs1 = bs2 ∧ bs1.data.len = 512 ∧ bs1.data.cap = 512 ∧ bs1.data.elems = b.take 512 ∧
      (∃ r, bs1.Bootstrap = .ok r ∧ bs2.Bootstrap = .ok r) ∧
      (∃ v, bs1.UniqueDiskID = .ok v ∧ bs2.UniqueDiskID = .ok v) ∧
      ∀ i : Nat, i ≤ 3 →
        ∃ e, bs1.PartitionTable (i : Int) = .ok e ∧ bs2.PartitionTable (i : Int) = .ok e := by
  have hl1 : 512 ≤ s1.len := by
    simp only [Slice.len, h1, List.length_append]; omega
  have hl2 : 512 ≤ s2.len := by
    simp only [Slice.len, h2, List.length_take]; omega
  have e1 : s1.elems.take 512 = b.take 512 := by
    rw [h1, List.take_append_of_le_length h]
  have e2 : s2.elems.take 512 = b.take 512 := by
    rw [h2, List.take_take]; simp
  have hd : (b.take 512).length = 512 := by
    simp only [List.length_take]; omega
  have t1 := ToBootSector_long s1 hl1
  have t2 := ToBootSector_long s2 hl2
  rw [e1] at t1
  rw [e2] at t2
  obtain ⟨b0, h0⟩ := exists_byte (b.take 512) 440 (by omega)
  obtain ⟨b1, hb1⟩ := exists_byte (b.take 512) 441 (by omega)
  obtain ⟨b2, hb2⟩ := exists_byte (b.take 512) 442 (by omega)
  obtain ⟨b3, hb3⟩ := exists_byte (b.take 512) 443 (by omega)
  refine ⟨_, _, t1, t2, rfl, hd, ?_, rfl, ⟨_, Bootstrap_view _ hd, Bootstrap_view _ hd⟩,
    ⟨_, UniqueDiskID_view _ hd b0 b1 b2 b3 h0 hb1 hb2 hb3,
      UniqueDiskID_view _ hd b0 b1 b2 b3 h0 hb1 hb2 hb3⟩, ?_⟩
  · simp only [Slice.cap, hd, List.length_nil]
  · intro i hi
    obtain ⟨e, he, _⟩ := PartitionTable_view (b.take 512) hd i (by omega) (by omega)
    exact ⟨e, he, he⟩

theorem ToBootSector_ignores_trailing_witness :
    512 ≤ fatInit0.length ∧
    (Slice.ofList (fatInit0 ++ [1, 2, 3])).elems = fatInit0 ++ [1, 2, 3] ∧
    (Slice.ofList (fatInit0.take 512)).elems = fatInit0.take 512 ∧
    ∃ bs1 bs2, ToBootSector (Slice.ofList (fatInit0 ++ [1, 2, 3])) = .ok (bs1, none) ∧
      ToBootSector (Slice.ofList (fatInit0.take 512)) = .ok (bs2, none) ∧
      bs1 = bs2 ∧ bs1.data.len = 512 ∧ bs1.data.cap = 512 ∧
      bs1.data.elems = fatInit0.take 512 ∧
      (∃ r, bs1.Bootstrap = .ok r ∧ bs2.Bootstrap = .ok r) ∧
      (∃ v, bs1.UniqueDiskID = .ok v ∧ bs2.UniqueDiskID = .ok v) ∧
      ∀ i : Nat, i ≤ 3 →
        ∃ e, bs1.PartitionTable (i : Int) = .ok e ∧ bs2.PartitionTable (i : Int) = .ok e :=
  ⟨le_of_eq fatInit0_length.symm, rfl, rfl,
    ToBootSector_ignores_trailing (Slice.ofList (fatInit0 ++ [1, 2, 3]))
      (Slice.ofList (fatInit0.take 512)) fatInit0 [1, 2, 3]
      (le_of_eq fatInit0_length.symm) rfl rfl⟩

/-- C10: for a buffer of at least 512 bytes, `Bootstrap` of the decoded boot sector
succeeds with a slice of length exactly 440 whose bytes are the buffer's bytes
0..439. -/
theorem Bootstrap_first_440 (b : Slice) (h : 512 ≤ b.len) :
    ∃ bs r, ToBootSector b = .ok (bs, none) ∧ bs.Bootstrap = .ok r ∧
      r.len = 440 ∧ r.elems = b.elems.take 440 ∧
      ∀ k : Nat, k < 440 → r.elems[k]? = b.elems[k]? := by
  have hl : 512 ≤ b.elems.length := h
  have hd := take512_length b h
  have e : (b.elems.take 512).take 440 = b.elems.take 440 := by
    rw [List.take_take]; simp
  refine ⟨_, _, ToBootSector_long b h, Bootstrap_view _ hd, ?_, e, ?_⟩
  · simp only [Slice.len, e, List.length_take]; omega
  · intro k hk
    simp only [e, List.getElem?_take, hk, if_true]

theorem Bootstrap_first_440_witness :
    512 ≤ (Slice.ofList fatInit0).len ∧
    ∃ bs r, ToBootSector (Slice.ofList fatInit0) = .ok (bs, none) ∧ bs.Bootstrap = .ok r ∧
      r.len = 440 ∧ r.elems = (Slice.ofList fatInit0).elems.take 440 ∧
      ∀ k : Nat, k < 440 → r.elems[k]? = (Slice.ofList fatInit0).elems[k]? :=
  have h1 : 512 ≤ (Slice.ofList fatInit0).len := by
    simp [Slice.len, Slice.ofList, fatInit0_length]
  ⟨h1, Bootstrap_first_440 _ h1⟩

end mbr

/-! ## Lemmas on the simulated RAM backend -/

theorem storeArray_inside (mem : Nat → Byte) (p : Nat) (sec : Sector) (j : Fin 512) :
    storeArray mem p sec (p + j.val) = sec j := by
  have hj := j.isLt
  have h : p ≤ p + j.val ∧ p + j.val < p + 512 := ⟨by omega, by omega⟩
  simp only [storeArray, h, and_self, dif_pos]
  congr 1
  apply Fin.ext
  simp

theorem storeArray_outside (mem : Nat → Byte) (p : Nat) (sec : Sector) (a : Nat)
    (h : a < p ∨ p + 512 ≤ a) : storeArray mem p sec a = mem a := by
  have h1 : ¬ (p ≤ a ∧ a < p + 512) := by omega
  simp only [storeArray, h1, dif_neg, not_false_eq_true]

theorem vfs_off (i : Nat) (h : i < 2 ^ 32) : (i * 512) % 2 ^ 64 = i * 512 := by
  omega

theorem vfs_key (s i : Nat) (hs : s < 2 ^ 32) (hi : i < 2 ^ 32) :
    wrapInt ((s : Int) + (i : Int)) = (s : Int) + (i : Int) :=
  wrapInt_eq_self _ (by omega) (by omega)

theorem vfsWriteFrom_succ (buf s n i : Nat) (v : VFS) (h : i ≤ 32000) :
    vfsWriteFrom buf s (n + 1) i v
      = vfsWriteFrom buf s n (i + 1)
          ⟨v.mem, mapSet v.fatInit (wrapInt ((s : Int) + (i : Int)))
            (loadArray v.mem ((buf + i * 512) % 2 ^ 64))⟩ := by
  have h1 : ¬ i * 512 > vfsLim := by
    unfold vfsLim; omega
  simp only [vfsWriteFrom, vfs_off i (by omega), h1, if_false]

theorem vfsWriteFrom_stop (buf s n i : Nat) (v : VFS) (h : 32000 < i) (hi : i < 2 ^ 32) :
    vfsWriteFrom buf s (n + 1) i v = (1, v) := by
  have h1 : i * 512 > vfsLim := by
    unfold vfsLim; omega
  simp only [vfsWriteFrom, vfs_off i hi, h1, if_true]

theorem vfsReadFrom_succ (buf s n i : Nat) (v : VFS) (h : i ≤ 32000) :
    vfsReadFrom buf s (n + 1) i v
      = vfsReadFrom buf s n (i + 1)
          ⟨storeArray v.mem ((buf + i * 512) % 2 ^ 64)
            (mapGet v.fatInit (wrapInt ((s : Int) + (i : Int)))), v.fatInit⟩ := by
  have h1 : ¬ i * 512 > vfsLim := by
    unfold vfsLim; omega
  simp only [vfsReadFrom, vfs_off i (by omega), h1, if_false]

theorem vfsReadFrom_stop (buf s n i : Nat) (v : VFS) (h : 32000 < i) (hi : i < 2 ^ 32) :
    vfsReadFrom buf s (n + 1) i v = (1, v) := by
  have h1 : i * 512 > vfsLim := by
    unfold vfsLim; omega
  simp only [vfsReadFrom, vfs_off i hi, h1, if_true]

theorem vfsWriteFrom_mem (buf s n i : Nat) (v : VFS) (hb : i + n ≤ 2 ^ 32) :
    (vfsWriteFrom buf s n i v).2.mem = v.mem := by
  induction n generalizing i v with
  | zero => rfl
  | succ n ih =>
    by_cases h : i ≤ 32000
    · rw [vfsWriteFrom_succ _ _ _ _ _ h, ih _ _ (by omega)]
    · rw [vfsWriteFrom_stop _ _ _ _ _ (by omega) (by omega)]

theorem vfsWriteFrom_code (buf s n i : Nat) (v : VFS) (hb : i + n ≤ 2 ^ 32) :
    (vfsWriteFrom buf s n i v).1 = if n = 0 ∨ i + n ≤ 32001 then 0 else 1 := by
  induction n generalizing i v with
  | zero => simp [vfsWriteFrom]
  | succ n ih =>
    by_cases h : i ≤ 32000
    · rw [vfsWriteFrom_succ _ _ _ _ _ h, ih _ _ (by omega)]
      split <;> split <;> first | rfl | omega
    · rw [vfsWriteFrom_stop _ _ _ _ _ (by omega) (by omega)]
      have hc : ¬ (n + 1 = 0 ∨ i + (n + 1) ≤ 32001) := by omega
      simp only [hc, if_false]

theorem vfsWriteFrom_map_outside (buf s n i : Nat) (v : VFS) (hs : s < 2 ^ 32)
    (hb : i + n ≤ 2 ^ 32) (key : Int)
    (hk : ∀ t : Nat, i ≤ t → t < i + n → t ≤ 32000 → key ≠ (s : Int) + (t : Int)) :
    (vfsWriteFrom buf s n i v).2.fatInit key = v.fatInit key := by
  induction n generalizing i v with
  | zero => rfl
  | succ n ih =>
    by_cases h : i ≤ 32000
    · rw [vfsWriteFrom_succ _ _ _ _ _ h,
        ih _ _ (by omega) (fun t h1 h2 h3 => hk t (by omega) (by omega) h3)]
      have hne := hk i (le_refl i) (by omega) h
      simp only [mapSet, vfs_key s i hs (by omega), hne, if_false]
    · rw [vfsWriteFrom_stop _ _ _ _ _ (by omega) (by omega)]

theorem vfsWriteFrom_map_inside (buf s n i : Nat) (v : VFS) (hs : s < 2 ^ 32)
    (hb : i + n ≤ 2 ^ 32) (t : Nat) (h1 : i ≤ t) (h2 : t < i + n) (h3 : t ≤ 32000) :
    (vfsWriteFrom buf s n i v).2.fatInit ((s : Int) + (t : Int))
      = some (loadArray v.mem ((buf + t * 512) % 2 ^ 64)) := by
  induction n generalizing i v with
  | zero => omega
  | succ n ih =>
    have h : i ≤ 32000 := by omega
    rw [vfsWriteFrom_succ _ _ _ _ _ h]
    by_cases ht : t = i
    · subst ht
      rw [vfsWriteFrom_map_outside _ _ _ _ _ hs (by omega) _ (fun u a b c => by omega)]
      simp only [mapSet, vfs_key s t hs (by omega), if_true]
    · rw [ih _ _ (by omega) (by omega) (by omega)]

theorem vfsReadFrom_fatInit (buf s n i : Nat) (v : VFS) (hb : i + n ≤ 2 ^ 32) :
    (vfsReadFrom buf s n i v).2.fatInit = v.fatInit := by
  induction n generalizing i v with
  | zero => rfl
  | succ n ih =>
    by_cases h : i ≤ 32000
    · rw [vfsReadFrom_succ _ _ _ _ _ h, ih _ _ (by omega)]
    · rw [vfsReadFrom_stop _ _ _ _ _ (by omega) (by omega)]

theorem vfsReadFrom_code (buf s n i : Nat) (v : VFS) (hb : i + n ≤ 2 ^ 32) :
    (vfsReadFrom buf s n i v).1 = if n = 0 ∨ i + n ≤ 32001 then 0 else 1 := by
  induction n generalizing i v with
  | zero => simp [vfsReadFrom]
  | succ n ih =>
    by_cases h : i ≤ 32000
    · rw [vfsReadFrom_succ _ _ _ _ _ h, ih _ _ (by omega)]
      split <;> split <;> first | rfl | omega
    · rw [vfsReadFrom_stop _ _ _ _ _ (by omega) (by omega)]
      have hc : ¬ (n + 1 = 0 ∨ i + (n + 1) ≤ 32001) := by omega
      simp only [hc, if_false]

theorem vfsReadFrom_mem_outside (buf s n i : Nat) (v : VFS) (hb : i + n ≤ 2 ^ 32)
    (hw : buf + (i + n) * 512 ≤ 2 ^ 64) (a : Nat)
    (ha : ∀ t : Nat, i ≤ t → t < i + n → t ≤ 32000 →
      a < buf + t * 512 ∨ buf + t * 512 + 512 ≤ a) :
    (vfsReadFrom buf s n i v).2.mem a = v.mem a := by
  induction n generalizing i v with
  | zero => rfl
  | succ n ih =>
    by_cases h : i ≤ 32000
    · rw [vfsReadFrom_succ _ _ _ _ _ h,
        ih _ _ (by omega) (by omega) (fun t h1 h2 h3 => ha t (by omega) (by omega) h3)]
      have hp : (buf + i * 512) % 2 ^ 64 = buf + i * 512 := by omega
      have hne := ha i (le_refl i) (by omega) h
      simp only [hp]
      exact storeArray_outside _ _ _ _ hne
    · rw [vfsReadFrom_stop _ _ _ _ _ (by omega) (by omega)]

theorem vfsReadFrom_mem_inside (buf s n i : Nat) (v : VFS) (hs : s < 2 ^ 32)
    (hb : i + n ≤ 2 ^ 32) (hw : buf + (i + n) * 512 ≤ 2 ^ 64)
    (t : Nat) (h1 : i ≤ t) (h2 : t < i + n) (h3 : t ≤ 32000) (j : Fin 512) :
    (vfsReadFrom buf s n i v).2.mem (buf + t * 512 + j.val)
      = mapGet v.fatInit ((s : Int) + (t : Int)) j := by
  induction n generalizing i v with
  | zero => omega
  | succ n ih =>
    have h : i ≤ 32000 := by omega
    have hj := j.isLt
    rw [vfsReadFrom_succ _ _ _ _ _ h]
    by_cases ht : t = i
    · subst ht
      rw [vfsReadFrom_mem_outside _ _ _ _ _ (by omega) (by omega) _
        (fun u a b c => by omega)]
      have hp : (buf + t * 512) % 2 ^ 64 = buf + t * 512 := by omega
      simp only [hp, vfs_key s t hs (by omega)]
      exact storeArray_inside _ _ _ j
    · rw [ih _ _ (by omega) (by omega) (by omega) (by omega)]

/-! ## Lemmas on the multiplexer -/

theorem bound_results_zero {σ : Type} (k : DiskConsts) (B : Backends σ) (pdrv : Byte)
    (buff sector count : Nat) (w : World σ) (h : k.bound pdrv) :
    (disk_status k B pdrv w).1 = 0 ∧ ( disk_initialize k B pdrv w).1 = 0 ∧
    (disk_read k B pdrv buff sector count w).1 = 0 ∧
    (disk_write k B pdrv buff sector count w).1 = 0 := by
  unfold DiskConsts.bound at h
  refine ⟨?_, ?_, ?_, ?_⟩
  · simp only [disk_status]; split_ifs <;> first | rfl | omega
  · simp only [ disk_initialize]; split_ifs <;> first | rfl | omega
  · simp only [disk_read]; split_ifs <;> first | rfl | omega
  · simp only [disk_write]; split_ifs <;> first | rfl | omega

theorem status_code_state_free {σ : Type} (k : DiskConsts) (B : Backends σ) (pdrv : Byte)
    (w1 w2 : World σ) :
    (disk_status k B pdrv w1).1 = (disk_status k B pdrv w2).1 ∧
    ( disk_initialize k B pdrv w1).1 = ( disk_initialize k B pdrv w2).1 := by
  constructor
  · simp only [disk_status]; split_ifs <;> rfl
  · simp only [ disk_initialize]; split_ifs <;> rfl

/-! ## Theorems on the multiplexer, continued -/

/-- C11 (the code departs from the claim): on each bound drive `disk_ioctl` returns
`res`, which is never assigned and keeps its zero value: with drive indices 0, 1, 2 the
result is 0 (OK) for every command byte and buffer, and no backend is invoked. -/
theorem disk_ioctl_ok_on_bound_drive :
    ∀ (cmd : Byte) (buff : Nat),
      disk_ioctl specConsts stubBackends 0 cmd buff ⟨(), []⟩ = (0, ⟨(), []⟩) ∧
      disk_ioctl specConsts stubBackends 1 cmd buff ⟨(), []⟩ = (0, ⟨(), []⟩) ∧
      disk_ioctl specConsts stubBackends 2 cmd buff ⟨(), []⟩ = (0, ⟨(), []⟩) :=
  fun _ _ => ⟨rfl, rfl, rfl⟩

/-- C15: with pairwise distinct drive constants, on the drive bound to medium `m` each
of `disk_status`, `disk_initialize`, `disk_read` and `disk_write` leaves the state that
one run of the backend function of its own kind and of medium `m` produces, and adds to
the record of invocations exactly that one call; `disk_read` and `disk_write` pass it
the caller's buffer, sector and count. -/
theorem bound_drive_invokes_matching_backend {σ : Type} (k : DiskConsts) (B : Backends σ)
    (pdrv : Byte) (m : Medium) (buff sector count : Nat) (w : World σ)
    (hd : k.DEV_RAM ≠ k.DEV_MMC ∧ k.DEV_RAM ≠ k.DEV_USB ∧ k.DEV_MMC ≠ k.DEV_USB)
    (hp : (pdrv.val : Int) = k.dev m) :
    (disk_status k B pdrv w).2 = ⟨(B.statusOf m w.state).2, w.calls ++ [.status m]⟩ ∧
    ( disk_initialize k B pdrv w).2 = ⟨(B.initOf m w.state).2, w.calls ++ [.init m]⟩ ∧
    (disk_read k B pdrv buff sector count w).2
      = ⟨(B.readOf m buff sector count w.state).2, w.calls ++ [.read m buff sector count]⟩ ∧
    (disk_write k B pdrv buff sector count w).2
      = ⟨(B.writeOf m buff sector count w.state).2,
          w.calls ++ [.write m buff sector count]⟩ := by
  obtain ⟨h1, h2, h3⟩ := hd
  cases m
  · simp [disk_status, disk_initialize, disk_read, disk_write, invoke, DiskConsts.dev,
      Backends.statusOf, Backends.initOf, Backends.readOf, Backends.writeOf] at hp ⊢
    simp [hp]
  · have e1 : ¬ k.DEV_MMC = k.DEV_RAM := fun e => h1 e.symm
    simp [disk_status, disk_initialize, disk_read, disk_write, invoke, DiskConsts.dev,
      Backends.statusOf, Backends.initOf, Backends.readOf, Backends.writeOf] at hp ⊢
    simp [hp, e1]
  · have e1 : ¬ k.DEV_USB = k.DEV_RAM := fun e => h2 e.symm
    have e2 : ¬ k.DEV_USB = k.DEV_MMC := fun e => h3 e.symm
    simp [disk_status, disk_initialize, disk_read, disk_write, invoke, DiskConsts.dev,
      Backends.statusOf, Backends.initOf, Backends.readOf, Backends.writeOf] at hp ⊢
    simp [hp, e1, e2]

theorem bound_drive_invokes_matching_backend_witness :
    (specConsts.DEV_RAM ≠ specConsts.DEV_MMC ∧ specConsts.DEV_RAM ≠ specConsts.DEV_USB ∧
      specConsts.DEV_MMC ≠ specConsts.DEV_USB) ∧
    ((1 : Byte).val : Int) = specConsts.dev .MMC ∧
    (disk_status specConsts stubBackends 1 ⟨(), []⟩).2
      = ⟨(stubBackends.statusOf .MMC ()).2, [] ++ [.status .MMC]⟩ ∧
    ( disk_initialize specConsts stubBackends 1 ⟨(), []⟩).2
      = ⟨(stubBackends.initOf .MMC ()).2, [] ++ [.init .MMC]⟩ ∧
    (disk_read specConsts stubBackends 1 4096 7 2 ⟨(), []⟩).2
      = ⟨(stubBackends.readOf .MMC 4096 7 2 ()).2, [] ++ [.read .MMC 4096 7 2]⟩ ∧
    (disk_write specConsts stubBackends 1 4096 7 2 ⟨(), []⟩).2
      = ⟨(stubBackends.writeOf .MMC 4096 7 2 ()).2, [] ++ [.write .MMC 4096 7 2]⟩ :=
  ⟨by decide, by decide,
    bound_drive_invokes_matching_backend specConsts stubBackends 1 .MMC 4096 7 2 ⟨(), []⟩
      (by decide) (by decide)⟩

/-- C16: on any two bound drive indices `disk_status`, `disk_initialize`, `disk_read`
and `disk_write` return the same result, whatever the states they run in and whatever
raw codes the backends return, so in particular when the backends return the same raw
code. -/
theorem multiplexer_backend_agnostic {σ : Type} (k : DiskConsts) (B : Backends σ)
    (d1 d2 : Byte) (buff sector count : Nat) (w1 w2 : World σ)
    (h1 : k.bound d1) (h2 : k.bound d2) :
    (disk_status k B d1 w1).1 = (disk_status k B d2 w2).1 ∧
    ( disk_initialize k B d1 w1).1 = ( disk_initialize k B d2 w2).1 ∧
    (disk_read k B d1 buff sector count w1).1 = (disk_read k B d2 buff sector count w2).1 ∧
    (disk_write k B d1 buff sector count w1).1
      = (disk_write k B d2 buff sector count w2).1 := by
  obtain ⟨a1, a2, a3, a4⟩ := bound_results_zero k B d1 buff sector count w1 h1
  obtain ⟨b1, b2, b3, b4⟩ := bound_results_zero k B d2 buff sector count w2 h2
  exact ⟨a1.trans b1.symm, a2.trans b2.symm, a3.trans b3.symm, a4.trans b4.symm⟩

theorem multiplexer_backend_agnostic_witness :
    specConsts.bound 0 ∧ specConsts.bound 2 ∧
    (disk_status specConsts loadVFS 0 ⟨sampleVFS, []⟩).1
      = (disk_status specConsts loadVFS 2 ⟨sampleVFS, []⟩).1 ∧
    ( disk_initialize specConsts loadVFS 0 ⟨sampleVFS, []⟩).1
      = ( disk_initialize specConsts loadVFS 2 ⟨sampleVFS, []⟩).1 ∧
    (disk_read specConsts loadVFS 0 4096 0 1 ⟨sampleVFS, []⟩).1
      = (disk_read specConsts loadVFS 2 4096 0 1 ⟨sampleVFS, []⟩).1 ∧
    (disk_write specConsts loadVFS 0 4096 0 1 ⟨sampleVFS, []⟩).1
      = (disk_write specConsts loadVFS 2 4096 0 1 ⟨sampleVFS, []⟩).1 :=
  have h1 : specConsts.bound 0 := Or.inl (by decide)
  have h2 : specConsts.bound 2 := Or.inr (Or.inr (by decide))
  ⟨h1, h2, multiplexer_backend_agnostic specConsts loadVFS 0 2 4096 0 1
    ⟨sampleVFS, []⟩ ⟨sampleVFS, []⟩ h1 h2⟩

/-- C17: with the initial backends of `ext.go`, for every drive index, bound or not,
a second `disk_initialize` right after a first returns the same status as the first and
leaves the same backend state, and `disk_status` after two calls returns what it
returns after one. -/
theorem disk_initialize_twice (k : DiskConsts) (pdrv : Byte) (w : World Unit) :
    ( disk_initialize k stubBackends pdrv ( disk_initialize k stubBackends pdrv w).2).1
      = ( disk_initialize k stubBackends pdrv w).1 ∧
    ( disk_initialize k stubBackends pdrv ( disk_initialize k stubBackends pdrv w).2).2.state
      = ( disk_initialize k stubBackends pdrv w).2.state ∧
    (disk_status k stubBackends pdrv
        ( disk_initialize k stubBackends pdrv ( disk_initialize k stubBackends pdrv w).2).2).1
      = (disk_status k stubBackends pdrv ( disk_initialize k stubBackends pdrv w).2).1 := by
  exact ⟨status_code_state_free k stubBackends pdrv _ _ |>.2, rfl,
    status_code_state_free k stubBackends pdrv _ _ |>.1⟩

/-! ## Theorems on the boot-sector view, continued -/

namespace mbr

/-- C18: on a boot sector that `ToBootSector` returned without error, `Bootstrap` and
`UniqueDiskID` succeed, and for `i` in [0,3] `PartitionTable(i)` succeeds with an entry
on which `StartSector` and `NumberOfSectors` succeed; the view has length 512, so the
slice bounds 0:440, 440:444 and 446+16i:462+16i lie inside it. The remaining entry
accessors index a 16-byte array at constant positions below 16 and are total. -/
theorem accessors_never_fail (b : Slice) (bs : BootSector)
    (h : ToBootSector b = .ok (bs, none)) :
    bs.data.len = 512 ∧
    (∃ r, bs.Bootstrap = .ok r) ∧ (∃ v, bs.UniqueDiskID = .ok v) ∧
    ∀ i : Nat, i ≤ 3 → (446 + 16 * i + 16 ≤ bs.data.len) ∧
      ∃ e, bs.PartitionTable (i : Int) = .ok e ∧
        (∃ v, e.StartSector = .ok v) ∧ (∃ v, e.NumberOfSectors = .ok v) := by
  have hlen : 512 ≤ b.len := by
    by_contra hc
    rw [ToBootSector_short b (by omega)] at h
    simp at h
  rw [ToBootSector_long b hlen] at h
  have hbs : bs = ⟨⟨b.elems.take 512, []⟩⟩ := by
    simp only [Except.ok.injEq, Prod.mk.injEq] at h
    exact h.1.symm
  subst hbs
  have hd := take512_length b hlen
  obtain ⟨b0, h0⟩ := exists_byte (b.elems.take 512) 440 (by omega)
  obtain ⟨b1, h1⟩ := exists_byte (b.elems.take 512) 441 (by omega)
  obtain ⟨b2, h2⟩ := exists_byte (b.elems.take 512) 442 (by omega)
  obtain ⟨b3, h3⟩ := exists_byte (b.elems.take 512) 443 (by omega)
  refine ⟨hd, ⟨_, Bootstrap_view _ hd⟩, ⟨_, UniqueDiskID_view _ hd b0 b1 b2 b3 h0 h1 h2 h3⟩, ?_⟩
  intro i hi
  obtain ⟨e, he, _⟩ := PartitionTable_view (b.elems.take 512) hd i (by omega) (by omega)
  refine ⟨?_, e, he, ⟨_, StartSector_eq e⟩, ⟨_, NumberOfSectors_eq e⟩⟩
  show 446 + 16 * i + 16 ≤ (b.elems.take 512).length
  omega

theorem accessors_never_fail_witness :
    ToBootSector (Slice.ofList fatInit0)
      = .ok (⟨⟨(Slice.ofList fatInit0).elems.take 512, []⟩⟩, none) ∧
    (BootSector.mk ⟨(Slice.ofList fatInit0).elems.take 512, []⟩).data.len = 512 ∧
    (∃ r, (BootSector.mk ⟨(Slice.ofList fatInit0).elems.take 512, []⟩).Bootstrap = .ok r) ∧
    (∃ v, (BootSector.mk ⟨(Slice.ofList fatInit0).elems.take 512, []⟩).UniqueDiskID = .ok v) ∧
    ∀ i : Nat, i ≤ 3 →
      (446 + 16 * i + 16
        ≤ (BootSector.mk ⟨(Slice.ofList fatInit0).elems.take 512, []⟩).data.len) ∧
      ∃ e, (BootSector.mk ⟨(Slice.ofList fatInit0).elems.take 512, []⟩).PartitionTable (i : Int)
          = .ok e ∧
        (∃ v, e.StartSector = .ok v) ∧ (∃ v, e.NumberOfSectors = .ok v) :=
  have h1 : 512 ≤ (Slice.ofList fatInit0).len := by
    simp [Slice.len, Slice.ofList, fatInit0_length]
  ⟨ToBootSector_long _ h1, accessors_never_fail _ _ (ToBootSector_long _ h1)⟩

end mbr

/-! ## Theorems on the simulated RAM backend -/

/-- C12: for the backend installed by `loadVFS`, any sector map and memory, any `uint32`
sector `s`, any count `c` for which the limit test never fires (`c ≤ 32001`) and
buffers of `c*512` bytes at `buf` and `buf2`: `RAM_disk_write(buf, s, c)` returns 0, a
following `RAM_disk_read(buf2, s, c)` returns 0, and afterwards byte `k` of the
destination buffer equals byte `k` of the written buffer, for every `k < c*512`. -/
theorem vfs_write_then_read_roundtrip (v : VFS) (buf buf2 s c : Nat)
    (hs : s < 2 ^ 32) (hc : c ≤ 32001)
    (hbuf : buf + c * 512 ≤ 2 ^ 64) (hbuf2 : buf2 + c * 512 ≤ 2 ^ 64) :
    (loadVFS.RAM_disk_write buf s c v).1 = 0 ∧
    (loadVFS.RAM_disk_read buf2 s c (loadVFS.RAM_disk_write buf s c v).2).1 = 0 ∧
    ∀ k : Nat, k < c * 512 →
      (loadVFS.RAM_disk_read buf2 s c (loadVFS.RAM_disk_write buf s c v).2).2.mem (buf2 + k)
        = v.mem (buf + k) := by
  show (vfsWriteFrom buf s c 0 v).1 = 0 ∧
    (vfsReadFrom buf2 s c 0 (vfsWriteFrom buf s c 0 v).2).1 = 0 ∧
    ∀ k : Nat, k < c * 512 →
      (vfsReadFrom buf2 s c 0 (vfsWriteFrom buf s c 0 v).2).2.mem (buf2 + k) = v.mem (buf + k)
  have hcond : c = 0 ∨ 0 + c ≤ 32001 := Or.inr (by omega)
  refine ⟨?_, ?_, ?_⟩
  · rw [vfsWriteFrom_code _ _ _ _ _ (by omega)]
    simp only [hcond, if_true]
  · rw [vfsReadFrom_code _ _ _ _ _ (by omega)]
    simp only [hcond, if_true]
  · intro k hk
    have hj : k % 512 < 512 := Nat.mod_lt _ (by omega)
    have hk2 : buf2 + k = buf2 + (k / 512) * 512 + (⟨k % 512, hj⟩ : Fin 512).val := by
      show buf2 + k = buf2 + (k / 512) * 512 + k % 512
      omega
    rw [hk2, vfsReadFrom_mem_inside buf2 s c 0 _ hs (by omega) (by omega) (k / 512)
      (by omega) (by omega) (by omega) ⟨k % 512, hj⟩]
    have hm := vfsWriteFrom_map_inside buf s c 0 v hs (by omega) (k / 512)
      (by omega) (by omega) (by omega)
    have hp : (buf + k / 512 * 512) % 2 ^ 64 = buf + k / 512 * 512 := by omega
    simp only [mapGet, hm, Option.getD_some, loadArray, hp]
    congr 1
    omega

theorem vfs_write_then_read_roundtrip_witness :
    5 < 2 ^ 32 ∧ 2 ≤ 32001 ∧ 4096 + 2 * 512 ≤ 2 ^ 64 ∧ 8192 + 2 * 512 ≤ 2 ^ 64 ∧
    (loadVFS.RAM_disk_write 4096 5 2 sampleVFS).1 = 0 ∧
    (loadVFS.RAM_disk_read 8192 5 2 (loadVFS.RAM_disk_write 4096 5 2 sampleVFS).2).1 = 0 ∧
    ∀ k : Nat, k < 2 * 512 →
      (loadVFS.RAM_disk_read 8192 5 2
          (loadVFS.RAM_disk_write 4096 5 2 sampleVFS).2).2.mem (8192 + k)
        = sampleVFS.mem (4096 + k) :=
  ⟨by norm_num, by norm_num, by norm_num, by norm_num,
    vfs_write_then_read_roundtrip sampleVFS 4096 8192 5 2
      (by norm_num) (by norm_num) (by norm_num) (by norm_num)⟩

/-- C13 (the code departs from the claim): the limit test of the write closure compares
the buffer offset `i*512` with `vfsLim`, never the sector. A write of one sector at
sector 32000 to an empty map returns 0 and stores the buffer at key 32000; the same
holds at every `uint32` sector. -/
theorem vfs_write_past_end_stores :
    (loadVFS.RAM_disk_write 4096 32000 1 sampleVFS).1 = 0 ∧
    sampleVFS.fatInit 32000 = none ∧
    (loadVFS.RAM_disk_write 4096 32000 1 sampleVFS).2.fatInit 32000
      = some (loadArray sampleVFS.mem 4096) ∧
    ∀ (v : VFS) (buf s : Nat), s < 2 ^ 32 → buf < 2 ^ 64 →
      (loadVFS.RAM_disk_write buf s 1 v).1 = 0 ∧
      (loadVFS.RAM_disk_write buf s 1 v).2.fatInit (s : Int) = some (loadArray v.mem buf) := by
  have gen : ∀ (v : VFS) (buf s : Nat), s < 2 ^ 32 → buf < 2 ^ 64 →
      (loadVFS.RAM_disk_write buf s 1 v).1 = 0 ∧
      (loadVFS.RAM_disk_write buf s 1 v).2.fatInit (s : Int)
        = some (loadArray v.mem buf) := by
    intro v buf s hs hbuf
    show (vfsWriteFrom buf s 1 0 v).1 = 0 ∧
      (vfsWriteFrom buf s 1 0 v).2.fatInit (s : Int) = some (loadArray v.mem buf)
    constructor
    · rw [vfsWriteFrom_code _ _ _ _ _ (by omega)]
      rfl
    · have hm := vfsWriteFrom_map_inside buf s 1 0 v hs (by omega) 0
        (by omega) (by omega) (by omega)
      have hp : (buf + 0 * 512) % 2 ^ 64 = buf := by omega
      rw [hp] at hm
      simpa using hm
  have g := gen sampleVFS 4096 32000 (by norm_num) (by norm_num)
  exact ⟨g.1, rfl, by simpa using g.2, gen⟩

theorem vfs_partial_transfer (c : Nat) (h1 : 32001 < c) (h2 : c < 2 ^ 32) :
    (loadVFS.RAM_disk_write 0 0 c sampleVFS).1 = 1 ∧
    sampleVFS.fatInit 0 = none ∧
    (loadVFS.RAM_disk_write 0 0 c sampleVFS).2.fatInit 0 = some (loadArray sampleVFS.mem 0) ∧
    (loadVFS.RAM_disk_read 0 0 c sampleVFS).1 = 1 ∧
    sampleVFS.mem 1 = 1 ∧
    (loadVFS.RAM_disk_read 0 0 c sampleVFS).2.mem 1 = 0 := by
  have hcond : ¬ (c = 0 ∨ 0 + c ≤ 32001) := by omega
  refine ⟨?_, rfl, ?_, ?_, rfl, ?_⟩
  · show (vfsWriteFrom 0 0 c 0 sampleVFS).1 = 1
    rw [vfsWriteFrom_code _ _ _ _ _ (by omega)]
    simp only [hcond, if_false]
  · have hm := vfsWriteFrom_map_inside 0 0 c 0 sampleVFS (by norm_num) (by omega) 0
      (by omega) (by omega) (by omega)
    exact hm
  · show (vfsReadFrom 0 0 c 0 sampleVFS).1 = 1
    rw [vfsReadFrom_code _ _ _ _ _ (by omega)]
    simp only [hcond, if_false]
  · have hm := vfsReadFrom_mem_inside 0 0 c 0 sampleVFS (by norm_num) (by omega)
      (by omega) 0 (by omega) (by omega) (by omega) ⟨1, by omega⟩
    exact hm.trans rfl

/-- C14 (counterexample): with count 32002 the limit test fires at `i = 32001`, after
32001 sectors have been transferred. On the sample state `RAM_disk_write(0, 0, 32002)`
returns 1 and key 0 of the map, absent before, now holds a sector; and
`RAM_disk_read(0, 0, 32002)` returns 1 and the byte at address 1 of the destination
buffer, 1 before, is now 0. -/
theorem vfs_failed_transfer_is_partial :
    (loadVFS.RAM_disk_write 0 0 32002 sampleVFS).1 = 1 ∧
    sampleVFS.fatInit 0 = none ∧
    (loadVFS.RAM_disk_write 0 0 32002 sampleVFS).2.fatInit 0 = some (loadArray sampleVFS.mem 0) ∧
    (loadVFS.RAM_disk_read 0 0 32002 sampleVFS).1 = 1 ∧
    sampleVFS.mem 1 = 1 ∧
    (loadVFS.RAM_disk_read 0 0 32002 sampleVFS).2.mem 1 = 0 :=
  vfs_partial_transfer 32002 (by norm_num) (by norm_num)

/-- C14 (amended): a transfer that fails has transferred whole sectors and nothing
else. If `RAM_disk_write` returns a non-zero code, the memory is unchanged, every key
of the sector map outside `s..s+c-1` keeps its contents, and each key `s+i` with
`i < c` either keeps its contents or holds the buffer's bytes `512*i..512*i+511`. If
`RAM_disk_read` returns a non-zero code, the sector map is unchanged, no byte outside
the destination buffer is modified, and each 512-byte block `i < c` of the buffer is
either unmodified or holds sector `s+i` of the map. -/
theorem vfs_failed_transfer_frame (v : VFS) (buf s c : Nat)
    (hs : s < 2 ^ 32) (hc : c < 2 ^ 32) (hbuf : buf + c * 512 ≤ 2 ^ 64) :
    ((loadVFS.RAM_disk_write buf s c v).1 ≠ 0 →
      (loadVFS.RAM_disk_write buf s c v).2.mem = v.mem ∧
      (∀ key : Int, key < (s : Int) ∨ (s : Int) + (c : Int) ≤ key →
        (loadVFS.RAM_disk_write buf s c v).2.fatInit key = v.fatInit key) ∧
      (∀ i : Nat, i < c →
        (loadVFS.RAM_disk_write buf s c v).2.fatInit ((s : Int) + (i : Int))
            = v.fatInit ((s : Int) + (i : Int)) ∨
        (loadVFS.RAM_disk_write buf s c v).2.fatInit ((s : Int) + (i : Int))
            = some (fun j : Fin 512 => v.mem (buf + 512 * i + j.val)))) ∧
    ((loadVFS.RAM_disk_read buf s c v).1 ≠ 0 →
      (loadVFS.RAM_disk_read buf s c v).2.fatInit = v.fatInit ∧
      (∀ a : Nat, a < buf ∨ buf + c * 512 ≤ a →
        (loadVFS.RAM_disk_read buf s c v).2.mem a = v.mem a) ∧
      (∀ i : Nat, i < c →
        (∀ j : Fin 512, (loadVFS.RAM_disk_read buf s c v).2.mem (buf + 512 * i + j.val)
            = v.mem (buf + 512 * i + j.val)) ∨
        (∀ j : Fin 512, (loadVFS.RAM_disk_read buf s c v).2.mem (buf + 512 * i + j.val)
            = mapGet v.fatInit ((s : Int) + (i : Int)) j))) := by
  constructor
  · intro _
    show (vfsWriteFrom buf s c 0 v).2.mem = v.mem ∧
      (∀ key : Int, key < (s : Int) ∨ (s : Int) + (c : Int) ≤ key →
        (vfsWriteFrom buf s c 0 v).2.fatInit key = v.fatInit key) ∧
      (∀ i : Nat, i < c →
        (vfsWriteFrom buf s c 0 v).2.fatInit ((s : Int) + (i : Int))
            = v.fatInit ((s : Int) + (i : Int)) ∨
        (vfsWriteFrom buf s c 0 v).2.fatInit ((s : Int) + (i : Int))
            = some (fun j : Fin 512 => v.mem (buf + 512 * i + j.val)))
    refine ⟨vfsWriteFrom_mem _ _ _ _ _ (by omega), ?_, ?_⟩
    · intro key hk
      exact vfsWriteFrom_map_outside _ _ _ _ _ hs (by omega) key (fun t _ h2 _ => by omega)
    · intro i hi
      by_cases h : i ≤ 32000
      · right
        rw [vfsWriteFrom_map_inside buf s c 0 v hs (by omega) i (by omega) (by omega) h]
        have hp : (buf + i * 512) % 2 ^ 64 = buf + 512 * i := by omega
        rw [hp]
        rfl
      · left
        exact vfsWriteFrom_map_outside _ _ _ _ _ hs (by omega) _ (fun t _ _ h3 => by omega)
  · intro _
    show (vfsReadFrom buf s c 0 v).2.fatInit = v.fatInit ∧
      (∀ a : Nat, a < buf ∨ buf + c * 512 ≤ a → (vfsReadFrom buf s c 0 v).2.mem a = v.mem a) ∧
      (∀ i : Nat, i < c →
        (∀ j : Fin 512, (vfsReadFrom buf s c 0 v).2.mem (buf + 512 * i + j.val)
            = v.mem (buf + 512 * i + j.val)) ∨
        (∀ j : Fin 512, (vfsReadFrom buf s c 0 v).2.mem (buf + 512 * i + j.val)
            = mapGet v.fatInit ((s : Int) + (i : Int)) j))
    refine ⟨vfsReadFrom_fatInit _ _ _ _ _ (by omega), ?_, ?_⟩
    · intro a ha
      exact vfsReadFrom_mem_outside _ _ _ _ _ (by omega) (by omega) a
        (fun t _ h2 _ => by omega)
    · intro i hi
      by_cases h : i ≤ 32000
      · right
        intro j
        have e : buf + 512 * i + j.val = buf + i * 512 + j.val := by omega
        rw [e]
        exact vfsReadFrom_mem_inside buf s c 0 v hs (by omega) (by omega) i
          (by omega) (by omega) h j
      · left
        intro j
        have hj := j.isLt
        exact vfsReadFrom_mem_outside _ _ _ _ _ (by omega) (by omega) _
          (fun t _ _ h3 => by omega)

theorem vfs_failed_transfer_frame_witness :
    0 < 2 ^ 32 ∧ 32002 < 2 ^ 32 ∧ 0 + 32002 * 512 ≤ 2 ^ 64 ∧
    ((loadVFS.RAM_disk_write 0 0 32002 sampleVFS).1 ≠ 0 →
      (loadVFS.RAM_disk_write 0 0 32002 sampleVFS).2.mem = sampleVFS.mem ∧
      (∀ key : Int, key < ((0 : Nat) : Int) ∨ ((0 : Nat) : Int) + ((32002 : Nat) : Int) ≤ key →
        (loadVFS.RAM_disk_write 0 0 32002 sampleVFS).2.fatInit key = sampleVFS.fatInit key) ∧
      (∀ i : Nat, i < 32002 →
        (loadVFS.RAM_disk_write 0 0 32002 sampleVFS).2.fatInit (((0 : Nat) : Int) + (i : Int))
            = sampleVFS.fatInit (((0 : Nat) : Int) + (i : Int)) ∨
        (loadVFS.RAM_disk_write 0 0 32002 sampleVFS).2.fatInit (((0 : Nat) : Int) + (i : Int))
            = some (fun j : Fin 512 => sampleVFS.mem (0 + 512 * i + j.val)))) ∧
    ((loadVFS.RAM_disk_read 0 0 32002 sampleVFS).1 ≠ 0 →
      (loadVFS.RAM_disk_read 0 0 32002 sampleVFS).2.fatInit = sampleVFS.fatInit ∧
      (∀ a : Nat, a < 0 ∨ 0 + 32002 * 512 ≤ a →
        (loadVFS.RAM_disk_read 0 0 32002 sampleVFS).2.mem a = sampleVFS.mem a) ∧
      (∀ i : Nat, i < 32002 →
        (∀ j : Fin 512, (loadVFS.RAM_disk_read 0 0 32002 sampleVFS).2.mem (0 + 512 * i + j.val)
            = sampleVFS.mem (0 + 512 * i + j.val)) ∨
        (∀ j : Fin 512, (loadVFS.RAM_disk_read 0 0 32002 sampleVFS).2.mem (0 + 512 * i + j.val)
            = mapGet sampleVFS.fatInit (((0 : Nat) : Int) + (i : Int)) j))) :=
  ⟨by norm_num, by norm_num, by norm_num,
    vfs_failed_transfer_frame sampleVFS 0 0 32002 (by norm_num) (by norm_num) (by norm_num)⟩

/-- C19: a `RAM_disk_write(buf, s, c)` that returns 0, with `uint32` sector and count
and a buffer of `c*512` bytes, leaves at each key `s+i`, `i < c`, the buffer's bytes
`512*i..512*i+511`, the key `int64(s)+int64(i)` being `s+i` without wrap-around; every
key outside `s..s+c-1` keeps its previous contents. -/
theorem vfs_write_frame (v : VFS) (buf s c : Nat)
    (hs : s < 2 ^ 32) (hc : c < 2 ^ 32) (hbuf : buf + c * 512 ≤ 2 ^ 64)
    (hok : (loadVFS.RAM_disk_write buf s c v).1 = 0) :
    (∀ i : Nat, i < c →
      wrapInt ((s : Int) + (i : Int)) = (s : Int) + (i : Int) ∧
      (loadVFS.RAM_disk_write buf s c v).2.fatInit ((s : Int) + (i : Int))
        = some (fun j : Fin 512 => v.mem (buf + 512 * i + j.val))) ∧
    (∀ key : Int, key < (s : Int) ∨ (s : Int) + (c : Int) ≤ key →
      (loadVFS.RAM_disk_write buf s c v).2.fatInit key = v.fatInit key) := by
  have hc1 : c ≤ 32001 := by
    have hcode : (vfsWriteFrom buf s c 0 v).1 = 0 := hok
    rw [vfsWriteFrom_code _ _ _ _ _ (by omega)] at hcode
    by_contra hcon
    have hcond : ¬ (c = 0 ∨ 0 + c ≤ 32001) := by omega
    simp only [hcond, if_false] at hcode
    exact absurd hcode (by decide)
  show (∀ i : Nat, i < c →
      wrapInt ((s : Int) + (i : Int)) = (s : Int) + (i : Int) ∧
      (vfsWriteFrom buf s c 0 v).2.fatInit ((s : Int) + (i : Int))
        = some (fun j : Fin 512 => v.mem (buf + 512 * i + j.val))) ∧
    (∀ key : Int, key < (s : Int) ∨ (s : Int) + (c : Int) ≤ key →
      (vfsWriteFrom buf s c 0 v).2.fatInit key = v.fatInit key)
  constructor
  · intro i hi
    refine ⟨vfs_key s i hs (by omega), ?_⟩
    rw [vfsWriteFrom_map_inside buf s c 0 v hs (by omega) i (by omega) (by omega) (by omega)]
    have hp : (buf + i * 512) % 2 ^ 64 = buf + 512 * i := by omega
    rw [hp]
    rfl
  · intro key hk
    exact vfsWriteFrom_map_outside _ _ _ _ _ hs (by omega) key (fun t _ h2 _ => by omega)

theorem vfs_write_frame_witness :
    5 < 2 ^ 32 ∧ 2 < 2 ^ 32 ∧ 4096 + 2 * 512 ≤ 2 ^ 64 ∧
    (loadVFS.RAM_disk_write 4096 5 2 sampleVFS).1 = 0 ∧
    (∀ i : Nat, i < 2 →
      wrapInt (((5 : Nat) : Int) + (i : Int)) = ((5 : Nat) : Int) + (i : Int) ∧
      (loadVFS.RAM_disk_write 4096 5 2 sampleVFS).2.fatInit (((5 : Nat) : Int) + (i : Int))
        = some (fun j : Fin 512 => sampleVFS.mem (4096 + 512 * i + j.val))) ∧
    (∀ key : Int, key < ((5 : Nat) : Int) ∨ ((5 : Nat) : Int) + ((2 : Nat) : Int) ≤ key →
      (loadVFS.RAM_disk_write 4096 5 2 sampleVFS).2.fatInit key = sampleVFS.fatInit key) :=
  ⟨by norm_num, by norm_num, by norm_num, rfl,
    vfs_write_frame sampleVFS 4096 5 2 (by norm_num) (by norm_num) (by norm_num) rfl⟩

theorem vfs_read_absent_block (c : Nat) (h1 : 32001 < c) (h2 : c < 2 ^ 32) :
    sampleVFS.fatInit 7 = none ∧
    (loadVFS.RAM_disk_read 4096 7 c sampleVFS).1 = 1 ∧
    ∀ j : Fin 512, (loadVFS.RAM_disk_read 4096 7 c sampleVFS).2.mem (4096 + j.val) = 0 := by
  have hcond : ¬ (c = 0 ∨ 0 + c ≤ 32001) := by omega
  refine ⟨rfl, ?_, ?_⟩
  · show (vfsReadFrom 4096 7 c 0 sampleVFS).1 = 1
    rw [vfsReadFrom_code _ _ _ _ _ (by omega)]
    simp only [hcond, if_false]
  · intro j
    have hm := vfsReadFrom_mem_inside 4096 7 c 0 sampleVFS (by norm_num) (by omega)
      (by omega) 0 (by omega) (by omega) (by omega) j
    exact hm.trans rfl

/-- C20 (counterexample): on the sample state, whose sector map is empty,
`RAM_disk_read(4096, 7, 32002)` reads the absent sector 7 into block 0 of the
destination buffer and fills its 512 bytes with zeros, yet the call returns 1, not 0:
the limit test fires at `i = 32001`. -/
theorem vfs_read_absent_sector_returns_one :
    sampleVFS.fatInit 7 = none ∧
    (loadVFS.RAM_disk_read 4096 7 32002 sampleVFS).1 = 1 ∧
    ∀ j : Fin 512, (loadVFS.RAM_disk_read 4096 7 32002 sampleVFS).2.mem (4096 + j.val) = 0 :=
  vfs_read_absent_block 32002 (by norm_num) (by norm_num)

/-- C20 (amended): `RAM_disk_read` leaves the sector map as it was, for every `uint32`
sector and count. Every block `i < c` that the loop reaches (`i ≤ 32000`) and whose key
`s+i` is absent from the map has its bytes `512*i..512*i+511` of the destination buffer
all zero afterwards, whether or not the call goes on to fail. An absent sector is never
the cause of a failure: the return code is the same for every sector map and memory,
and it is 0 whenever `c ≤ 32001`. -/
theorem vfs_read_keeps_map_zero_fills (v : VFS) (buf s c : Nat)
    (hs : s < 2 ^ 32) (hc : c < 2 ^ 32) (hbuf : buf + c * 512 ≤ 2 ^ 64) :
    (loadVFS.RAM_disk_read buf s c v).2.fatInit = v.fatInit ∧
    (∀ i : Nat, i < c → i ≤ 32000 → v.fatInit ((s : Int) + (i : Int)) = none →
      ∀ j : Fin 512, (loadVFS.RAM_disk_read buf s c v).2.mem (buf + 512 * i + j.val) = 0) ∧
    (∀ v2 : VFS, (loadVFS.RAM_disk_read buf s c v2).1 = (loadVFS.RAM_disk_read buf s c v).1) ∧
    (c ≤ 32001 →
      (loadVFS.RAM_disk_read buf s c v).1 = 0 ∧
      ∀ i : Nat, i < c → v.fatInit ((s : Int) + (i : Int)) = none →
        ∀ j : Fin 512, (loadVFS.RAM_disk_read buf s c v).2.mem (buf + 512 * i + j.val) = 0) := by
  show (vfsReadFrom buf s c 0 v).2.fatInit = v.fatInit ∧
    (∀ i : Nat, i < c → i ≤ 32000 → v.fatInit ((s : Int) + (i : Int)) = none →
      ∀ j : Fin 512, (vfsReadFrom buf s c 0 v).2.mem (buf + 512 * i + j.val) = 0) ∧
    (∀ v2 : VFS, (vfsReadFrom buf s c 0 v2).1 = (vfsReadFrom buf s c 0 v).1) ∧
    (c ≤ 32001 →
      (vfsReadFrom buf s c 0 v).1 = 0 ∧
      ∀ i : Nat, i < c → v.fatInit ((s : Int) + (i : Int)) = none →
        ∀ j : Fin 512, (vfsReadFrom buf s c 0 v).2.mem (buf + 512 * i + j.val) = 0)
  have hzero : ∀ i : Nat, i < c → i ≤ 32000 → v.fatInit ((s : Int) + (i : Int)) = none →
      ∀ j : Fin 512, (vfsReadFrom buf s c 0 v).2.mem (buf + 512 * i + j.val) = 0 := by
    intro i hi hreach habs j
    have e : buf + 512 * i + j.val = buf + i * 512 + j.val := by omega
    rw [e, vfsReadFrom_mem_inside buf s c 0 v hs (by omega) (by omega) i
      (by omega) (by omega) hreach j]
    simp only [mapGet, habs, Option.getD_none, zeroSector]
  refine ⟨vfsReadFrom_fatInit _ _ _ _ _ (by omega), hzero, ?_, ?_⟩
  · intro v2
    rw [vfsReadFrom_code _ _ _ _ _ (by omega), vfsReadFrom_code _ _ _ _ _ (by omega)]
  · intro hc1
    constructor
    · rw [vfsReadFrom_code _ _ _ _ _ (by omega)]
      have hcond : c = 0 ∨ 0 + c ≤ 32001 := Or.inr (by omega)
      simp only [hcond, if_true]
    · intro i hi habs j
      exact hzero i hi (by omega) habs j

theorem vfs_read_keeps_map_zero_fills_witness :
    3 < 2 ^ 32 ∧ 2 < 2 ^ 32 ∧ 4096 + 2 * 512 ≤ 2 ^ 64 ∧
    (loadVFS.RAM_disk_read 4096 3 2 sampleVFS).2.fatInit = sampleVFS.fatInit ∧
    (∀ i : Nat, i < 2 → i ≤ 32000 → sampleVFS.fatInit (((3 : Nat) : Int) + (i : Int)) = none →
      ∀ j : Fin 512,
        (loadVFS.RAM_disk_read 4096 3 2 sampleVFS).2.mem (4096 + 512 * i + j.val) = 0) ∧
    (∀ v2 : VFS, (loadVFS.RAM_disk_read 4096 3 2 v2).1
      = (loadVFS.RAM_disk_read 4096 3 2 sampleVFS).1) ∧
    (2 ≤ 32001 →
      (loadVFS.RAM_disk_read 4096 3 2 sampleVFS).1 = 0 ∧
      ∀ i : Nat, i < 2 → sampleVFS.fatInit (((3 : Nat) : Int) + (i : Int)) = none →
        ∀ j : Fin 512,
          (loadVFS.RAM_disk_read 4096 3 2 sampleVFS).2.mem (4096 + 512 * i + j.val) = 0) :=
  ⟨by norm_num, by norm_num, by norm_num,
    vfs_read_keeps_map_zero_fills sampleVFS 4096 3 2 (by norm_num) (by norm_num) (by norm_num)⟩

/-! ## Theorems on the facade -/

theorem facade_on_replicate (n m : Nat) (hn : 0 < n) (hm : n % 2 ^ 32 = m) :
    (Slice.ofList (List.replicate n 0)).len = n ∧
    (Read nullEngine 64 4096 (Slice.ofList (List.replicate n 0)) ⟨(), []⟩).2.calls
      = [.f_read 64 4096 m] ∧
    (Write nullEngine 64 4096 (Slice.ofList (List.replicate n 0)) ⟨(), []⟩).2.calls
      = [.f_write 64 4096 m] := by
  have hl : (Slice.ofList (List.replicate n (0 : Byte))).len = n := by
    simp only [Slice.len, Slice.ofList, List.length_replicate]
  have ha : addrOfFirst 4096 (Slice.ofList (List.replicate n (0 : Byte))) = .ok 4096 := by
    simp only [addrOfFirst, hl, hn, if_true]
  have hu : lenU32 (Slice.ofList (List.replicate n (0 : Byte))) = m := by
    simp only [lenU32, hl, hm]
  refine ⟨hl, ?_, ?_⟩
  · simp only [Read, ha, hu, List.nil_append]
  · simp only [Write, ha, hu, List.nil_append]

/-- C21 (counterexample): for a buffer of 2^32 bytes the access `&buf[0]` is in bounds
and `Read` and `Write` call the engine once, but with length `uint32(len(buf)) = 0`,
not with `len(buf) = 4294967296`. -/
theorem facade_length_truncated :
    (Slice.ofList (List.replicate 4294967296 0)).len = 4294967296 ∧
    (Read nullEngine 64 4096 (Slice.ofList (List.replicate 4294967296 0)) ⟨(), []⟩).2.calls
      = [.f_read 64 4096 0] ∧
    (Write nullEngine 64 4096 (Slice.ofList (List.replicate 4294967296 0)) ⟨(), []⟩).2.calls
      = [.f_write 64 4096 0] :=
  facade_on_replicate 4294967296 0 (by norm_num) (by norm_num)

/-- C21 (amended): `Read` and `Write` take the address of `buf[0]` before calling the
engine. For every non-empty buffer that access is in bounds and the engine is called
exactly once, with the buffer's data pointer and the length `uint32(len(buf))`, which
is `len(buf)` whenever `len(buf) < 2^32`. For the empty buffer the access is out of
bounds: the call panics, and the engine state and the record of engine invocations
are as before, so neither `f_read` nor `f_write` is invoked. -/
theorem facade_first_element_access {ε : Type} (E : Engine ε) (fp ptr : Nat) (buf : Slice)
    (w : EngineWorld ε) :
    (0 < buf.len →
      addrOfFirst ptr buf = .ok ptr ∧
      Read E fp ptr buf w
        = (.ok (E.f_read fp ptr (buf.len % 2 ^ 32) w.state).1,
            ⟨(E.f_read fp ptr (buf.len % 2 ^ 32) w.state).2,
              w.calls ++ [.f_read fp ptr (buf.len % 2 ^ 32)]⟩) ∧
      Write E fp ptr buf w
        = (.ok (E.f_write fp ptr (buf.len % 2 ^ 32) w.state).1,
            ⟨(E.f_write fp ptr (buf.len % 2 ^ 32) w.state).2,
              w.calls ++ [.f_write fp ptr (buf.len % 2 ^ 32)]⟩) ∧
      (buf.len < 2 ^ 32 → buf.len % 2 ^ 32 = buf.len)) ∧
    (buf.len = 0 →
      addrOfFirst ptr buf = .error .indexOutOfRange ∧
      Read E fp ptr buf w = (.error .indexOutOfRange, w) ∧
      Write E fp ptr buf w = (.error .indexOutOfRange, w)) := by
  constructor
  · intro h
    have ha : addrOfFirst ptr buf = .ok ptr := by
      simp only [addrOfFirst, h, if_true]
    refine ⟨ha, ?_, ?_, fun hlt => Nat.mod_eq_of_lt hlt⟩
    · simp only [Read, ha, lenU32]
    · simp only [Write, ha, lenU32]
  · intro h
    have ha : addrOfFirst ptr buf = .error .indexOutOfRange := by
      simp [addrOfFirst, h]
    refine ⟨ha, ?_, ?_⟩
    · simp only [Read, ha]
    · simp only [Write, ha]

end Fatfs
